import Mathlib

/-!
Shallow embedding of the trash-routing core of the "Send to Recycle Bin"
Picard plugin (`__init__.py`; `recycle-bin.py` duplicates the same core).

Modelling conventions:
* Paths and file contents are `String`s; Python falsiness of a path is the
  empty string (the dispatcher receives strings, so `str(p)` is the identity).
* The filesystem is an association list from paths to entries (directory or
  file-with-content).  `os.path.exists` is key membership.
* Library calls whose outcome depends on the outside world are driven by an
  explicit environment `Env`: whether `os.makedirs` / `shutil.move` / the
  info-file `open(...).write` raise, the return code and aborted flag of the
  Windows `SHFileOperationW` call, `sys.platform`, the expansion of `~`,
  `os.path.abspath`, and the local-timezone conversion performed by
  `datetime.astimezone`.  `os.makedirs` is modelled as creating the requested
  directory itself (intermediate components are not tracked; only existence
  of the leaf is ever consulted by the code).
* Exceptions that escape a function are `Except.error ()`; exceptions caught
  by the per-file `try/except` blocks are resolved inside the step functions.
* Each mover additionally returns the list of move/write effects it
  performed, in order, so that per-file claims can be stated without global
  non-interference arguments.
-/

/-- Entry of the modelled filesystem: a directory, or a regular file
carrying its text content. -/
inductive Entry where
  | dir : Entry
  | file (content : String) : Entry
deriving DecidableEq

/-- Modelled filesystem: a finite association of path strings to entries. -/
structure FS where
  entries : List (String × Entry)
deriving DecidableEq

/-- Modelled `os.path.exists`. -/
def FS.contains (fs : FS) (p : String) : Bool :=
  fs.entries.any (fun kv => kv.1 == p)

/-- Look up the entry stored at a path. -/
def FS.lookup (fs : FS) (p : String) : Option Entry :=
  (fs.entries.find? (fun kv => kv.1 == p)).map (fun kv => kv.2)

/-- Does a directory exist at this path? -/
def FS.containsDir (fs : FS) (d : String) : Bool :=
  fs.entries.any (fun kv => kv.1 == d && kv.2 == Entry.dir)

/-- Modelled `shutil.move src dst`: the entry at `src` is re-keyed to `dst`
(replacing anything previously at `dst`).  A missing source is a no-op here;
the movers only call this on existing paths. -/
def FS.move (fs : FS) (src dst : String) : FS :=
  match fs.lookup src with
  | none => fs
  | some e => ⟨(dst, e) :: fs.entries.filter (fun kv => kv.1 ≠ src && kv.1 ≠ dst)⟩

/-- Modelled `open(p, "w")` followed by writing `content`. -/
def FS.write (fs : FS) (p content : String) : FS :=
  ⟨(p, Entry.file content) :: fs.entries.filter (fun kv => kv.1 ≠ p)⟩

/-- Create a directory entry. -/
def FS.addDir (fs : FS) (d : String) : FS :=
  ⟨(d, Entry.dir) :: fs.entries⟩

/-- Remove every path in `ps` from the filesystem (effect of a successful
Windows batched recycle operation). -/
def FS.removeAll (fs : FS) (ps : List String) : FS :=
  ⟨fs.entries.filter (fun kv => !(ps.contains kv.1))⟩

/-- Local calendar time, the result of `datetime.astimezone` on an instant:
what `strftime` fields read.  `microsecond` exists but is never printed by
the `%Y-%m-%dT%H:%M:%S` format, which is the truncation to second
precision. -/
structure LocalDT where
  year : Nat
  month : Nat
  day : Nat
  hour : Nat
  minute : Nat
  second : Nat
  microsecond : Nat
deriving DecidableEq

/-- Environment: all outside-world behaviour the core consults. -/
structure Env where
  /-- value of `sys.platform`. -/
  sysPlatform : String
  /-- value of `os.path.expanduser "~"`. -/
  userHome : String
  /-- instant returned by `datetime.datetime.now(timezone.utc)`, abstract. -/
  sysNow : Nat
  /-- local-timezone conversion performed by `datetime.astimezone`. -/
  localize : Nat → LocalDT
  /-- modelled `os.path.abspath`. -/
  abspath : String → String
  /-- return code of `SHFileOperationW`. -/
  winRet : Int
  /-- value of the `fAnyOperationsAborted` field after the call. -/
  winAborted : Bool
  /-- does `os.makedirs` raise when it actually has to create this directory? -/
  mkdirFail : String → Bool
  /-- does `shutil.move` raise for this source path? -/
  moveFail : String → Bool
  /-- does opening/writing this info file raise? -/
  writeFail : String → Bool

/-- Does the string start with a `/` (the check `b.startswith(sep)` inside
`os.path.join`)? -/
def strStartsSlash (s : String) : Bool :=
  match s.data with
  | [] => false
  | c :: _ => c == '/'

/-- Does the string end with a `/` (the check `a.endswith(sep)` inside
`os.path.join`)? -/
def strEndsSlash (s : String) : Bool :=
  match s.data.getLast? with
  | none => false
  | some c => c == '/'

/-- Modelled `os.path.join` for two components (posix rules, as used by the
Mac and Freedesktop movers). -/
def pathJoin (a b : String) : String :=
  if strStartsSlash b then b
  else if a == "" || strEndsSlash a then a ++ b
  else a ++ "/" ++ b

/-- Suffix of a character list after its last `/`. -/
def basenameList : List Char → List Char
  | [] => []
  | c :: cs => if '/' ∈ cs then basenameList cs else if c == '/' then cs else c :: cs

/-- Modelled `os.path.basename`: everything after the last `/`. -/
def basenameStr (s : String) : String :=
  ⟨basenameList s.data⟩

/-- Index of the last `.` in a character list, if any. -/
def lastDotIdx (cs : List Char) : Option Nat :=
  match cs.reverse.findIdx? (fun c => c == '.') with
  | none => none
  | some r => some (cs.length - 1 - r)

/-- Modelled `os.path.splitext` restricted to base names (no `/`), which is
how the code calls it: split at the last dot provided some earlier character
of the name is not a dot (a leading run of dots is not an extension). -/
def splitext (s : String) : String × String :=
  match lastDotIdx s.data with
  | none => (s, "")
  | some d =>
      if (s.data.take d).any (fun c => c != '.') then (⟨s.data.take d⟩, ⟨s.data.drop d⟩)
      else (s, "")

/-- Decimal digit character. -/
def digitChar10 (d : Nat) : Char := Char.ofNat (48 + d)

/-- Fueled decimal rendering accumulator. -/
def natCharsAux : Nat → Nat → List Char → List Char
  | 0, _, acc => acc
  | fuel + 1, n, acc =>
      if n < 10 then digitChar10 n :: acc
      else natCharsAux fuel (n / 10) (digitChar10 (n % 10) :: acc)

/-- Decimal digits of a natural number (the rendering of `f"{i}"`). -/
def natChars (n : Nat) : List Char := natCharsAux (n + 1) n []

/-- Decimal string of a natural number. -/
def natStr (n : Nat) : String := ⟨natChars n⟩

/-- Two-digit zero padding, as `strftime` `%m`/`%d`/`%H`/`%M`/`%S`. -/
def pad2 (n : Nat) : String := if n < 10 then "0" ++ natStr n else natStr n

/-- Four-digit zero padding, as `strftime` `%Y`. -/
def pad4 (n : Nat) : String :=
  if n < 10 then "000" ++ natStr n
  else if n < 100 then "00" ++ natStr n
  else if n < 1000 then "0" ++ natStr n
  else natStr n

/-- Modelled `strftime("%Y-%m-%dT%H:%M:%S")`: second precision, no timezone
suffix; the `microsecond` field is dropped. -/
def fmtStamp (t : LocalDT) : String :=
  pad4 t.year ++ "-" ++ pad2 t.month ++ "-" ++ pad2 t.day ++ "T" ++
    pad2 t.hour ++ ":" ++ pad2 t.minute ++ ":" ++ pad2 t.second

/-- Bytes kept literal by `urllib.parse.quote` with its default `safe='/'`:
ASCII letters, digits, `_`, `.`, `-`, `~` and `/`. -/
def alwaysSafeByte (b : Nat) : Bool :=
  (65 ≤ b && b ≤ 90) || (97 ≤ b && b ≤ 122) || (48 ≤ b && b ≤ 57) ||
    b == 95 || b == 46 || b == 45 || b == 126 || b == 47

/-- Uppercase hexadecimal digit character. -/
def hexUpper (n : Nat) : Char :=
  if n < 10 then Char.ofNat (48 + n) else Char.ofNat (55 + n)

/-- Percent-encoding of a single byte, per `urllib.parse.quote`. -/
def quoteByte (b : Nat) : List Char :=
  if alwaysSafeByte b then [Char.ofNat b]
  else ['%', hexUpper (b / 16), hexUpper (b % 16)]

/-- UTF-8 encoding of a Unicode scalar value. -/
def utf8EncodeNat (c : Nat) : List Nat :=
  if c < 128 then [c]
  else if c < 2048 then [192 + c / 64, 128 + c % 64]
  else if c < 65536 then [224 + c / 4096, 128 + (c / 64) % 64, 128 + c % 64]
  else [240 + c / 262144, 128 + (c / 4096) % 64, 128 + (c / 64) % 64, 128 + c % 64]

/-- UTF-8 bytes of a string (Python `str.encode("utf-8")`). -/
def utf8Bytes (s : String) : List Nat :=
  (s.data.map (fun c => utf8EncodeNat c.toNat)).flatten

/-- Modelled `urllib.parse.quote(s)` (default `safe='/'`). -/
def quoteStr (s : String) : String :=
  ⟨((utf8Bytes s).map quoteByte).flatten⟩

/-- Value of an ASCII hexadecimal digit character. -/
def hexVal (c : Char) : Option Nat :=
  if 48 ≤ c.toNat && c.toNat ≤ 57 then some (c.toNat - 48)
  else if 65 ≤ c.toNat && c.toNat ≤ 70 then some (c.toNat - 55)
  else if 97 ≤ c.toNat && c.toNat ≤ 102 then some (c.toNat - 87)
  else none

/-- Value of a valid `%XX` escape pair, if both digits are hexadecimal. -/
def hexPair (c1 c2 : Char) : Option Nat :=
  match hexVal c1, hexVal c2 with
  | some h, some lo => some (16 * h + lo)
  | _, _ => none

/-- Percent-decoding of `urllib.parse.unquote` down to bytes: each valid
`%XX` becomes one byte, everything else stays literal (stated for the ASCII
strings `quote` produces). -/
def unquoteBytes (l : List Char) : List Nat :=
  match l with
  | [] => []
  | [c] => [c.toNat]
  | [c, c1] => [c.toNat, c1.toNat]
  | c :: c1 :: c2 :: rest =>
      if c = '%' && (hexPair c1 c2).isSome then
        (hexPair c1 c2).getD 0 :: unquoteBytes rest
      else c.toNat :: unquoteBytes (c1 :: c2 :: rest)
termination_by l.length

/-- Number of bytes of the UTF-8 sequence led by first byte `b`. -/
def utf8Len (b : Nat) : Nat :=
  if b < 128 then 1 else if b < 224 then 2 else if b < 240 then 3 else 4

/-- Scalar value reassembled from a UTF-8 lead byte and its continuation
bytes. -/
def utf8Val (b : Nat) (cont : List Nat) : Nat :=
  let hdr :=
    if b < 128 then b else if b < 224 then b - 192 else if b < 240 then b - 224 else b - 240
  cont.foldl (fun acc x => acc * 64 + (x - 128)) hdr

/-- UTF-8 decoding of a byte list back to scalar values (how
`urllib.parse.unquote` reassembles text from decoded bytes; validity
checking beyond the length structure is not needed for the round-trip). -/
def utf8Decode (l : List Nat) : Option (List Nat) :=
  match l with
  | [] => some []
  | b :: rest =>
      if rest.length < utf8Len b - 1 then none
      else
        (utf8Decode (rest.drop (utf8Len b - 1))).map
          (fun cs => utf8Val b (rest.take (utf8Len b - 1)) :: cs)
termination_by l.length
decreasing_by simp; omega

/-- Modelled `urllib.parse.unquote` on the ASCII output of `quote`. -/
def unquoteStr (s : String) : Option String :=
  (utf8Decode (unquoteBytes s.data)).map (fun cs => ⟨cs.map Char.ofNat⟩)

/-- Observable filesystem effects a mover performs, in order. -/
inductive Eff where
  | move (src dst : String) : Eff
  | write (path content : String) : Eff
deriving DecidableEq

/-- Resolution of the `home_dir = home_dir or os.path.expanduser("~")`
default (a falsy — empty — override also falls back). -/
def resolveHome (env : Env) (h : Option String) : String :=
  match h with
  | some s => if s = "" then env.userHome else s
  | none => env.userHome

/-- Modelled `os.makedirs(d, exist_ok=True)`: no-op on an existing
directory, error on an existing non-directory, otherwise creates the
directory unless the environment makes the call raise. -/
def makedirs (env : Env) (fs : FS) (d : String) : Except Unit FS :=
  if fs.containsDir d then .ok fs
  else if fs.contains d then .error ()
  else if env.mkdirFail d then .error ()
  else .ok (fs.addDir d)

/-- Candidate replacement base name `f"{root}.{i}{ext}"` used by
`_unique_dest_path`. -/
def nameCand (base : String) (i : Nat) : String :=
  (splitext base).1 ++ "." ++ natStr i ++ (splitext base).2

/-- Candidate destination path probed by `_unique_dest_path`. -/
def destCand (dest_dir base : String) (i : Nat) : String :=
  pathJoin dest_dir (nameCand base i)

/-- Embedding of `_unique_dest_path(dest_dir, base_name)`: return
`dest_dir/base_name` if free, otherwise the first free
`dest_dir/{root}.{i}{ext}` for `i` in `range(1, 10_000)`; `Except.error ()`
is the `RuntimeError` raised when every candidate exists. -/
def unique_dest_path (ex : String → Bool) (dest_dir base_name : String) :
    Except Unit String :=
  if !(ex (pathJoin dest_dir base_name)) then .ok (pathJoin dest_dir base_name)
  else
    match (List.range' 1 9999).find? (fun i => !(ex (destCand dest_dir base_name i))) with
    | some i => .ok (destCand dest_dir base_name i)
    | none => .error ()

/-- One iteration of the `_trash_macos` per-file loop: the body of the
`try` block, with every caught exception resolved to a failed step.
Returns the new filesystem, whether the path goes to `ok`, and the effects
performed. -/
def macStep (env : Env) (trash_dir : String) (fs : FS) (p : String) :
    FS × Bool × List Eff :=
  if p = "" || !(fs.contains p) then (fs, false, [])
  else
    match unique_dest_path fs.contains trash_dir (basenameStr p) with
    | .error _ => (fs, false, [])
    | .ok dest =>
        if env.moveFail p then (fs, false, [])
        else (fs.move p dest, true, [Eff.move p dest])

/-- The shared shape of the Mac/Freedesktop per-file loops: run `step` on
each path in order, threading the filesystem; a path whose step reports
success is appended to `ok`, otherwise to `failed` (matching the order of
the Python `ok.append` / `failed.append` calls). -/
def runLoop (step : FS → String → FS × Bool × List Eff) :
    FS → List String → FS × List String × List String × List Eff
  | fs, [] => (fs, [], [], [])
  | fs, p :: rest =>
      let s := step fs p
      let r := runLoop step s.1 rest
      (r.1, if s.2.1 then p :: r.2.1 else r.2.1,
        if s.2.1 then r.2.2.1 else p :: r.2.2.1, s.2.2 ++ r.2.2.2)

/-- Embedding of `_trash_macos(paths, home_dir)`. The `os.makedirs` call is
outside any `try`, so its failure escapes as `Except.error ()`. -/
def trash_macos (env : Env) (fs : FS) (paths : List String)
    (home_dir : Option String) :
    Except Unit (FS × List String × List String × List Eff) :=
  let home := resolveHome env home_dir
  let trash_dir := pathJoin home ".Trash"
  match makedirs env fs trash_dir with
  | .error e => .error e
  | .ok fs1 => .ok (runLoop (macStep env trash_dir) fs1 paths)

/-- Content of the `.trashinfo` record written for original path `p`
(the three `f.write` calls concatenated). -/
def infoContent (env : Env) (p stamp : String) : String :=
  "[Trash Info]\n" ++ "Path=" ++ quoteStr (env.abspath p) ++ "\n" ++
    "DeletionDate=" ++ stamp ++ "\n"

/-- One iteration of the `_trash_freedesktop` per-file loop (the `try`
body): skip missing/falsy paths, move to a free name under `files/`, then
write the `.trashinfo` record; a failing write leaves the file moved but
reports the step failed. -/
def fdStep (env : Env) (files_dir info_dir stamp : String) (fs : FS)
    (p : String) : FS × Bool × List Eff :=
  if p = "" || !(fs.contains p) then (fs, false, [])
  else
    match unique_dest_path fs.contains files_dir (basenameStr p) with
    | .error _ => (fs, false, [])
    | .ok dest =>
        if env.moveFail p then (fs, false, [])
        else
          let fs1 := fs.move p dest
          let info_path := pathJoin info_dir (basenameStr dest ++ ".trashinfo")
          if env.writeFail info_path then (fs1, false, [Eff.move p dest])
          else
            (fs1.write info_path (infoContent env p stamp), true,
              [Eff.move p dest, Eff.write info_path (infoContent env p stamp)])

/-- The `~/.local/share/Trash` root used by the Freedesktop mover. -/
def trashRootOf (home : String) : String :=
  pathJoin (pathJoin (pathJoin home ".local") "share") "Trash"

/-- The `files` directory of the Freedesktop trash. -/
def filesDirOf (home : String) : String := pathJoin (trashRootOf home) "files"

/-- The `info` directory of the Freedesktop trash. -/
def infoDirOf (home : String) : String := pathJoin (trashRootOf home) "info"

/-- The batch timestamp `now.astimezone().strftime("%Y-%m-%dT%H:%M:%S")`
with `now = now or datetime.now(timezone.utc)`, computed once per call. -/
def batchStamp (env : Env) (now : Option Nat) : String :=
  fmtStamp (env.localize (now.getD env.sysNow))

/-- Embedding of `_trash_freedesktop(paths, home_dir, now)`.  The two
`os.makedirs` calls precede the loop and their failures escape. -/
def trash_freedesktop (env : Env) (fs : FS) (paths : List String)
    (home_dir : Option String) (now : Option Nat) :
    Except Unit (FS × List String × List String × List Eff) :=
  let home := resolveHome env home_dir
  let files_dir := filesDirOf home
  let info_dir := infoDirOf home
  match makedirs env fs files_dir with
  | .error e => .error e
  | .ok fs1 =>
      match makedirs env fs1 info_dir with
      | .error e => .error e
      | .ok fs2 =>
          .ok (runLoop (fdStep env files_dir info_dir (batchStamp env now)) fs2 paths)

/-- Embedding of `_trash_windows(paths)`: filter to existing, truthy
paths; if none, fail everything; otherwise one batched OS call whose
nonzero return code or aborted flag fails every existing path, and whose
success reports every existing path succeeded (removing them from the
filesystem). -/
def trash_windows (fs : FS) (ret : Int) (aborted : Bool)
    (paths : List String) : FS × List String × List String :=
  let existing := paths.filter (fun p => p ≠ "" && fs.contains p)
  if existing.isEmpty then (fs, [], paths)
  else if ret ≠ 0 || aborted then (fs, [], existing)
  else (fs.removeAll existing, existing, [])

/-- Does the platform string have `"win"` as a prefix
(`platform.startswith("win")`)? -/
def strStartsWith (s pre : String) : Bool := pre.data.isPrefixOf s.data

/-- The effective platform identifier: `platform = platform or sys.platform`
(a falsy — empty — identifier also falls back). -/
def effPlatform (env : Env) (platform : Option String) : String :=
  match platform with
  | some s => if s = "" then env.sysPlatform else s
  | none => env.sysPlatform

/-- Embedding of `send_paths_to_trash(paths, platform, home_dir, now)`:
normalize (drop falsy entries; `str` is the identity on strings), return
`([], [])` on an empty normalized list, then dispatch on the platform
identifier. -/
def send_paths_to_trash (env : Env) (fs : FS) (paths : List String)
    (platform : Option String) (home_dir : Option String) (now : Option Nat) :
    Except Unit (FS × List String × List String × List Eff) :=
  let plat := effPlatform env platform
  let ps := paths.filter (fun p => p ≠ "")
  if ps.isEmpty then .ok (fs, [], [], [])
  else if strStartsWith plat "win" then
    let r := trash_windows fs env.winRet env.winAborted ps
    .ok (r.1, r.2.1, r.2.2, [])
  else if plat = "darwin" then trash_macos env fs ps home_dir
  else trash_freedesktop env fs ps home_dir now

/-- Fixture environment for concrete evaluations: benign outside world. -/
def env0 : Env :=
  { sysPlatform := "linux", userHome := "h", sysNow := 0,
    localize := fun _ => ⟨2024, 3, 4, 5, 6, 7, 8⟩,
    abspath := fun s => s, winRet := 0, winAborted := false,
    mkdirFail := fun _ => false, moveFail := fun _ => false,
    writeFail := fun _ => false }

/-! ### Character and percent-encoding lemmas -/

/-- Conversion back out of `Char.ofNat` for a valid scalar value. -/
theorem toNat_ofNat_valid {n : Nat} (h : n.isValidChar) :
    (Char.ofNat n).toNat = n := by
  rw [Char.ofNat, dif_pos h]
  rfl

/-- Every `Char` holds a scalar value below `0x110000`. -/
theorem char_toNat_lt (c : Char) : c.toNat < 1114112 := by
  have h := c.valid
  rcases h with h | ⟨_, h⟩
  · exact Nat.lt_trans h (by decide)
  · exact h

/-- Decoding a digit emitted by `hexUpper`. -/
theorem hexVal_hexUpper {n : Nat} (h : n < 16) :
    hexVal (hexUpper n) = some n := by
  interval_cases n <;> decide

/-- A byte accepted by `alwaysSafeByte` is ASCII and is not `%`. -/
theorem alwaysSafeByte_bounds {b : Nat} (h : alwaysSafeByte b = true) :
    b < 128 ∧ b ≠ 37 := by
  simp only [alwaysSafeByte, Bool.or_eq_true, Bool.and_eq_true,
    decide_eq_true_eq, beq_iff_eq] at h
  omega

/-- Unfolding `unquoteBytes` on a literal (non-`%`) head character. -/
theorem unquoteBytes_cons_ne {c : Char} (cs : List Char) (h : ¬ c = '%') :
    unquoteBytes (c :: cs) = c.toNat :: unquoteBytes cs := by
  match cs with
  | [] => simp [unquoteBytes]
  | [c1] => simp [unquoteBytes]
  | c1 :: c2 :: rest => simp [unquoteBytes, h]

/-- Percent-decoding inverts the percent-encoding of any single byte. -/
theorem unquoteBytes_quoteByte {b : Nat} (hb : b < 256) (cs : List Char) :
    unquoteBytes (quoteByte b ++ cs) = b :: unquoteBytes cs := by
  by_cases hs : alwaysSafeByte b = true
  · obtain ⟨h128, h37⟩ := alwaysSafeByte_bounds hs
    have hv : b.isValidChar := Or.inl (by omega)
    have hne : ¬ Char.ofNat b = '%' := by
      intro hEq
      have h1 := congrArg Char.toNat hEq
      rw [toNat_ofNat_valid hv, show ('%').toNat = 37 from rfl] at h1
      omega
    rw [quoteByte, if_pos hs]
    simpa [toNat_ofNat_valid hv] using unquoteBytes_cons_ne cs hne
  · rw [quoteByte, if_neg hs]
    have h1 : hexVal (hexUpper (b / 16)) = some (b / 16) :=
      hexVal_hexUpper (by omega)
    have h2 : hexVal (hexUpper (b % 16)) = some (b % 16) :=
      hexVal_hexUpper (by omega)
    have hp : hexPair (hexUpper (b / 16)) (hexUpper (b % 16)) = some b := by
      rw [hexPair, h1, h2]
      show some (16 * (b / 16) + b % 16) = some b
      have hv : 16 * (b / 16) + b % 16 = b := by omega
      rw [hv]
    simp [unquoteBytes, hp]

/-- UTF-8 encoding emits only bytes below 256. -/
theorem utf8EncodeNat_lt {c : Nat} (h : c < 1114112) :
    ∀ b ∈ utf8EncodeNat c, b < 256 := by
  intro b hb
  unfold utf8EncodeNat at hb
  by_cases h1 : c < 128
  · rw [if_pos h1] at hb
    simp at hb
    omega
  · rw [if_neg h1] at hb
    by_cases h2 : c < 2048
    · rw [if_pos h2] at hb
      simp at hb
      rcases hb with h3 | h3 <;> omega
    · rw [if_neg h2] at hb
      by_cases h3 : c < 65536
      · rw [if_pos h3] at hb
        simp at hb
        rcases hb with h4 | h4 | h4 <;> omega
      · rw [if_neg h3] at hb
        simp at hb
        rcases hb with h4 | h4 | h4 | h4 <;> omega

/-- UTF-8 decoding inverts UTF-8 encoding of one scalar value, in front of
any remaining byte stream. -/
theorem utf8Decode_encode {c : Nat} (h : c < 1114112) (bs : List Nat) :
    utf8Decode (utf8EncodeNat c ++ bs) = (utf8Decode bs).map (fun cs => c :: cs) := by
  unfold utf8EncodeNat
  by_cases h1 : c < 128
  · rw [if_pos h1]
    have hL : utf8Len c = 1 := by simp [utf8Len, h1]
    have hv : utf8Val c [] = c := by simp [utf8Val, h1]
    simp only [List.cons_append, List.nil_append]
    rw [utf8Decode, hL]
    simp [hv]
  · rw [if_neg h1]
    by_cases h2 : c < 2048
    · rw [if_pos h2]
      have hL : utf8Len (192 + c / 64) = 2 := by
        rw [utf8Len, if_neg (by omega), if_pos (by omega)]
      have hv : utf8Val (192 + c / 64) [128 + c % 64] = c := by
        rw [utf8Val]
        simp only [List.foldl_cons, List.foldl_nil]
        rw [if_neg (by omega), if_pos (by omega)]
        omega
      simp only [List.cons_append, List.nil_append]
      rw [utf8Decode, hL]
      simp [hv]
    · rw [if_neg h2]
      by_cases h3 : c < 65536
      · rw [if_pos h3]
        have hL : utf8Len (224 + c / 4096) = 3 := by
          rw [utf8Len, if_neg (by omega), if_neg (by omega), if_pos (by omega)]
        have hv : utf8Val (224 + c / 4096) [128 + c / 64 % 64, 128 + c % 64] = c := by
          rw [utf8Val]
          simp only [List.foldl_cons, List.foldl_nil]
          rw [if_neg (by omega), if_neg (by omega), if_pos (by omega)]
          omega
        simp only [List.cons_append, List.nil_append]
        rw [utf8Decode, hL]
        simp [hv]
      · rw [if_neg h3]
        have hL : utf8Len (240 + c / 262144) = 4 := by
          rw [utf8Len, if_neg (by omega), if_neg (by omega), if_neg (by omega)]
        have hv : utf8Val (240 + c / 262144)
            [128 + c / 4096 % 64, 128 + c / 64 % 64, 128 + c % 64] = c := by
          rw [utf8Val]
          simp only [List.foldl_cons, List.foldl_nil]
          rw [if_neg (by omega), if_neg (by omega), if_neg (by omega)]
          omega
        simp only [List.cons_append, List.nil_append]
        rw [utf8Decode, hL]
        simp [hv]

/-- Percent-decoding inverts percent-encoding on any byte list of bytes
below 256, in front of any remaining character stream. -/
theorem unquoteBytes_quoteBytes {bs : List Nat} (h : ∀ b ∈ bs, b < 256)
    (cs : List Char) :
    unquoteBytes ((bs.map quoteByte).flatten ++ cs) = bs ++ unquoteBytes cs := by
  induction bs with
  | nil => simp
  | cons b bs ih =>
      simp only [List.map_cons, List.flatten_cons, List.append_assoc]
      rw [unquoteBytes_quoteByte (h b (by simp)) _]
      rw [ih (fun x hx => h x (by simp [hx]))]
      rfl

/-- UTF-8 decoding inverts the byte encoding of a character list. -/
theorem utf8Decode_utf8Bytes (l : List Char) :
    utf8Decode ((l.map (fun c => utf8EncodeNat c.toNat)).flatten) =
      some (l.map Char.toNat) := by
  induction l with
  | nil => simp [utf8Decode]
  | cons c l ih =>
      simp only [List.map_cons, List.flatten_cons]
      rw [utf8Decode_encode (char_toNat_lt c)]
      rw [ih]
      rfl

/-- Every byte of `utf8Bytes` is below 256. -/
theorem utf8Bytes_lt (s : String) : ∀ b ∈ utf8Bytes s, b < 256 := by
  intro b hb
  simp only [utf8Bytes, List.mem_flatten, List.mem_map] at hb
  obtain ⟨l, ⟨c, _, rfl⟩, hbl⟩ := hb
  exact utf8EncodeNat_lt (char_toNat_lt c) b hbl

/-- Rebuilding each character from its scalar value is the identity. -/
theorem map_ofNat_toNat (l : List Char) : l.map (Char.ofNat ∘ Char.toNat) = l := by
  induction l with
  | nil => rfl
  | cons c l ih => simp only [List.map_cons, Function.comp_apply, Char.ofNat_toNat, ih]

/-- Percent-decoding the percent-encoding of any string returns the string
exactly (`urllib.parse.unquote` inverts `urllib.parse.quote`). -/
theorem unquote_quote_roundtrip (s : String) : unquoteStr (quoteStr s) = some s := by
  obtain ⟨d⟩ := s
  have hdata : (quoteStr ⟨d⟩).data = ((utf8Bytes ⟨d⟩).map quoteByte).flatten := rfl
  rw [unquoteStr, hdata]
  have h0 : unquoteBytes [] = [] := by simp [unquoteBytes]
  have h1 : unquoteBytes (((utf8Bytes ⟨d⟩).map quoteByte).flatten ++ []) =
      utf8Bytes ⟨d⟩ ++ unquoteBytes [] := unquoteBytes_quoteBytes (utf8Bytes_lt _) []
  rw [List.append_nil, h0, List.append_nil] at h1
  rw [h1]
  rw [show utf8Bytes ⟨d⟩ = ((d.map (fun c => utf8EncodeNat c.toNat)).flatten) from rfl]
  rw [utf8Decode_utf8Bytes]
  simp only [Option.map_some', List.map_map]
  rw [map_ofNat_toNat]


/-! ### Per-file loop lemmas -/

/-- The succeeded and failed lists of a per-file loop together are a
permutation of the processed paths. -/
theorem runLoop_perm (step : FS → String → FS × Bool × List Eff) :
    ∀ (ps : List String) (fs : FS),
      ((runLoop step fs ps).2.1 ++ (runLoop step fs ps).2.2.1).Perm ps := by
  intro ps
  induction ps with
  | nil =>
      intro fs
      simp [runLoop]
  | cons p rest ih =>
      intro fs
      by_cases hflag : (step fs p).2.1 = true
      · simp only [runLoop, hflag, if_true, List.cons_append]
        exact (ih _).cons p
      · have hflag' : (step fs p).2.1 = false := by
          simpa using hflag
        simp only [runLoop, hflag', Bool.false_eq_true, if_false]
        exact List.perm_middle.trans ((ih _).cons p)

/-- A loop whose step skips every path with no filesystem change and no
effects returns the filesystem untouched and everything failed. -/
theorem runLoop_allskip (step : FS → String → FS × Bool × List Eff)
    (ps : List String) (fs : FS) (h : ∀ p ∈ ps, step fs p = (fs, false, [])) :
    runLoop step fs ps = (fs, [], ps, []) := by
  induction ps with
  | nil => simp [runLoop]
  | cons p rest ih =>
      have hp := h p (by simp)
      rw [runLoop, hp]
      have hrest := ih (fun q hq => h q (by simp [hq]))
      rw [hrest]
      simp

/-! ### Path and name lemmas -/

/-- The result of `basenameList` never contains a slash. -/
theorem basenameList_no_slash (cs : List Char) : '/' ∉ basenameList cs := by
  induction cs with
  | nil => simp [basenameList]
  | cons c cs ih =>
      by_cases h1 : '/' ∈ cs
      · simpa [basenameList, h1] using ih
      · by_cases h2 : c = '/'
        · simp [basenameList, h1, h2]
        · simp [basenameList, h1, h2]
          intro hc
          exact h2 hc.symm

/-- The modelled `os.path.basename` never contains a slash. -/
theorem no_slash_basenameStr (s : String) : '/' ∉ (basenameStr s).data :=
  basenameList_no_slash s.data

/-- On a slash-free list, `basenameList` is the identity. -/
theorem basenameList_id {cs : List Char} (h : '/' ∉ cs) : basenameList cs = cs := by
  cases cs with
  | nil => rfl
  | cons c cs =>
      have h1 : '/' ∉ cs := fun hm => h (List.mem_cons_of_mem _ hm)
      have h2 : ¬ c = '/' := fun hc => h (by rw [hc]; exact List.mem_cons_self _ _)
      rw [basenameList, if_neg h1, if_neg (by simp [h2])]

/-- After the last slash of `l ++ '/' :: r` (with `r` slash-free) comes `r`. -/
theorem basenameList_append {r : List Char} (l : List Char) (h : '/' ∉ r) :
    basenameList (l ++ '/' :: r) = r := by
  induction l with
  | nil =>
      simp [basenameList, h]
  | cons c l ih =>
      have hm : '/' ∈ (l ++ '/' :: r) := by simp
      simpa [basenameList, hm] using ih

/-- A string whose final character exists and is not a slash decomposes as
list-with-last. -/
theorem exists_concat_of_getLast? :
    ∀ {cs : List Char} {c : Char}, cs.getLast? = some c → ∃ l, cs = l ++ [c] := by
  intro cs
  induction cs with
  | nil => intro c h; simp at h
  | cons a cs ih =>
      intro c h
      cases cs with
      | nil =>
          simp at h
          exact ⟨[], by simp [h]⟩
      | cons b cs' =>
          rw [List.getLast?_cons_cons] at h
          obtain ⟨l, hl⟩ := ih h
          exact ⟨a :: l, by simp [hl]⟩

/-- Joining a slash-free, non-slash-terminated directory with a slash-free
name produces `dir ++ "/" ++ name` at the data level. -/
theorem pathJoin_data {d n : String} (hd : strEndsSlash d = false) (hne : d ≠ "")
    (hn : '/' ∉ n.data) : (pathJoin d n).data = d.data ++ '/' :: n.data := by
  have hss : strStartsSlash n = false := by
    unfold strStartsSlash
    cases hnd : n.data with
    | nil => rfl
    | cons c cs =>
        have : c ≠ '/' := by
          intro hc
          exact hn (by simp [hnd, hc])
        simpa using this
  rw [pathJoin, if_neg (by simp [hss])]
  rw [if_neg (by simp [hne, hd])]
  simp [String.data_append]

/-- Basename of such a join recovers the name. -/
theorem basenameStr_pathJoin {d n : String} (hd : strEndsSlash d = false)
    (hne : d ≠ "") (hn : '/' ∉ n.data) : basenameStr (pathJoin d n) = n := by
  rw [basenameStr, pathJoin_data hd hne hn, basenameList_append _ hn]

/-- The join of such a directory and name starts with `dir ++ "/"`. -/
theorem strStartsWith_pathJoin {d n : String} (hd : strEndsSlash d = false)
    (hne : d ≠ "") (hn : '/' ∉ n.data) :
    strStartsWith (pathJoin d n) (d ++ "/") = true := by
  rw [strStartsWith, List.isPrefixOf_iff_prefix, pathJoin_data hd hne hn,
    String.data_append]
  rw [show ("/" : String).data = ['/'] from rfl]
  exact ⟨n.data, by simp⟩

/-- Joining onto a component that is non-empty and does not end in a slash
yields a path that is non-empty and does not end in a slash. -/
theorem pathJoin_keeps_end {b : String} (x : String) (hb1 : strEndsSlash b = false)
    (hb2 : b ≠ "") : strEndsSlash (pathJoin x b) = false ∧ pathJoin x b ≠ "" := by
  have hbd : b.data ≠ [] := by
    intro h
    apply hb2
    cases b
    simp at h
    simp [h]
  obtain ⟨cb, hcb⟩ : ∃ cb, b.data.getLast? = some cb := by
    cases hgl : b.data.getLast? with
    | none => exact absurd (List.getLast?_eq_none_iff.mp hgl) hbd
    | some c => exact ⟨c, rfl⟩
  have happ : ∀ x' : String, (x' ++ b).data.getLast? = some cb := by
    intro x'
    rw [String.data_append, List.getLast?_append, hcb]
    rfl
  have hend : ∀ x' : String, strEndsSlash (x' ++ b) = false := by
    intro x'
    rw [strEndsSlash, happ x']
    rw [strEndsSlash, hcb] at hb1
    exact hb1
  have hne : ∀ x' : String, x' ++ b ≠ "" := by
    intro x' h
    have : (x' ++ b).data = [] := by rw [h]
    rw [String.data_append] at this
    exact hbd (List.append_eq_nil.mp this).2
  rw [pathJoin]
  by_cases h1 : strStartsSlash b = true
  · rw [if_pos h1]
    exact ⟨hb1, hb2⟩
  · rw [if_neg h1]
    by_cases h2 : (x == "" || strEndsSlash x) = true
    · rw [if_pos h2]
      exact ⟨hend x, hne x⟩
    · rw [if_neg h2]
      exact ⟨hend (x ++ "/"), hne (x ++ "/")⟩

/-- Digits emitted by the decimal renderer are never a slash. -/
theorem no_slash_natCharsAux :
    ∀ (fuel n : Nat) (acc : List Char), '/' ∉ acc → '/' ∉ natCharsAux fuel n acc := by
  intro fuel
  induction fuel with
  | zero => intro n acc hacc; simpa [natCharsAux] using hacc
  | succ fuel ih =>
      intro n acc hacc
      have hdig : ∀ d : Nat, d < 10 → ¬ digitChar10 d = '/' := by
        intro d hd hcontra
        have h1 := congrArg Char.toNat hcontra
        have hv : (48 + d).isValidChar := Or.inl (by omega)
        rw [digitChar10, toNat_ofNat_valid hv, show ('/').toNat = 47 from rfl] at h1
        omega
      rw [natCharsAux]
      by_cases h10 : n < 10
      · rw [if_pos h10]
        intro hm
        rcases List.mem_cons.mp hm with hm | hm
        · exact hdig n h10 hm.symm
        · exact hacc hm
      · rw [if_neg h10]
        apply ih
        intro hm
        rcases List.mem_cons.mp hm with hm | hm
        · exact hdig (n % 10) (by omega) hm.symm
        · exact hacc hm

/-- The decimal rendering of a number contains no slash. -/
theorem no_slash_natStr (n : Nat) : '/' ∉ (natStr n).data :=
  no_slash_natCharsAux (n + 1) n [] (by simp)

/-- Both components of `splitext` stay inside the original characters. -/
theorem no_slash_splitext {s : String} (h : '/' ∉ s.data) :
    '/' ∉ (splitext s).1.data ∧ '/' ∉ (splitext s).2.data := by
  rw [splitext]
  split
  · exact ⟨h, by simp⟩
  · split
    · constructor
      · intro hm
        exact h ((List.take_sublist _ s.data).subset hm)
      · intro hm
        exact h ((List.drop_sublist _ s.data).subset hm)
    · exact ⟨h, by simp⟩

/-- A probe candidate name built from a slash-free base name is slash-free. -/
theorem no_slash_nameCand {base : String} (h : '/' ∉ base.data) (i : Nat) :
    '/' ∉ (nameCand base i).data := by
  rw [nameCand]
  rw [String.data_append, String.data_append, String.data_append]
  intro hm
  rcases List.mem_append.mp hm with hm | hm
  · rcases List.mem_append.mp hm with hm | hm
    · rcases List.mem_append.mp hm with hm | hm
      · exact (no_slash_splitext h).1 hm
      · simp at hm
    · exact no_slash_natStr i hm
  · exact (no_slash_splitext h).2 hm

/-- Characterisation of a successful `_unique_dest_path` probe: the result
is free at selection time and is either `dir/base` or a numbered candidate
with index in `1..9999`. -/
theorem unique_dest_path_ok {ex : String → Bool} {dir base d : String}
    (h : unique_dest_path ex dir base = .ok d) :
    ex d = false ∧
      (d = pathJoin dir base ∨ ∃ i, 1 ≤ i ∧ i ≤ 9999 ∧ d = destCand dir base i) := by
  rw [unique_dest_path] at h
  by_cases h0 : ex (pathJoin dir base) = false
  · rw [if_pos (by simp [h0])] at h
    cases h
    exact ⟨h0, Or.inl rfl⟩
  · rw [if_neg (by simpa using h0)] at h
    cases hf : (List.range' 1 9999).find? (fun i => !(ex (destCand dir base i))) with
    | none => rw [hf] at h; cases h
    | some i =>
        rw [hf] at h
        cases h
        have hfree := List.find?_some hf
        have hmem := List.mem_of_find?_eq_some hf
        rw [List.mem_range'] at hmem
        obtain ⟨k, hk, rfl⟩ := hmem
        refine ⟨by simpa using hfree, Or.inr ⟨1 + 1 * k, by omega, by omega, rfl⟩⟩

/-- A successful probe result decomposes as a join of the directory with a
slash-free name (when the base name is slash-free). -/
theorem unique_dest_path_shape {ex : String → Bool} {dir base d : String}
    (h : unique_dest_path ex dir base = .ok d) (hb : '/' ∉ base.data) :
    ex d = false ∧ ∃ nm, d = pathJoin dir nm ∧ '/' ∉ nm.data := by
  obtain ⟨hfree, hcase⟩ := unique_dest_path_ok h
  refine ⟨hfree, ?_⟩
  rcases hcase with rfl | ⟨i, _, _, rfl⟩
  · exact ⟨base, rfl, hb⟩
  · exact ⟨nameCand base i, rfl, no_slash_nameCand hb i⟩

/-- The `files` directory of the trash root is non-empty and does not end
with a slash, for every home directory. -/
theorem filesDirOf_end (home : String) :
    strEndsSlash (filesDirOf home) = false ∧ filesDirOf home ≠ "" :=
  pathJoin_keeps_end _ (by decide) (by decide)

/-- The `info` directory of the trash root is non-empty and does not end
with a slash, for every home directory. -/
theorem infoDirOf_end (home : String) :
    strEndsSlash (infoDirOf home) = false ∧ infoDirOf home ≠ "" :=
  pathJoin_keeps_end _ (by decide) (by decide)

/-! ### Filesystem operation lemmas -/

/-- A contained path has a lookup result. -/
theorem FS.lookup_isSome (fs : FS) (p : String) :
    (fs.lookup p).isSome = fs.contains p := by
  rw [FS.lookup, FS.contains]
  cases hf : fs.entries.find? (fun kv => kv.1 == p) with
  | none =>
      rw [List.find?_eq_none] at hf
      simp only [Option.map_none', Option.isSome_none]
      symm
      rw [List.any_eq_false]
      exact hf
  | some kv =>
      simp only [Option.map_some', Option.isSome_some]
      symm
      rw [List.any_eq_true]
      have h1 := List.find?_some hf
      have h2 := List.mem_of_find?_eq_some hf
      exact ⟨kv, h2, h1⟩

/-- The target of a move on an existing source exists afterwards. -/
theorem FS.contains_move_target {fs : FS} {s t : String}
    (h : fs.contains s = true) : (fs.move s t).contains t = true := by
  rw [FS.move]
  cases hl : fs.lookup s with
  | none =>
      rw [← FS.lookup_isSome, hl] at h
      simp at h
  | some e => simp [FS.contains]

/-- The source of a move to a different target is gone afterwards. -/
theorem FS.contains_move_src {fs : FS} {s t : String}
    (h : fs.contains s = true) (hst : s ≠ t) :
    (fs.move s t).contains s = false := by
  rw [FS.move]
  cases hl : fs.lookup s with
  | none =>
      rw [← FS.lookup_isSome, hl] at h
      simp at h
  | some e =>
      rw [FS.contains]
      simp only [List.any_eq_false]
      intro kv hkv
      rcases List.mem_cons.mp hkv with rfl | hkv
      · simpa using fun hc => hst hc.symm
      · have := List.of_mem_filter hkv
        simp only [Bool.and_eq_true, decide_eq_true_eq] at this
        simpa using this.1

/-- A move leaves unrelated paths untouched. -/
theorem FS.contains_move_other {fs : FS} {s t x : String}
    (hxs : x ≠ s) (hxt : x ≠ t) :
    (fs.move s t).contains x = fs.contains x := by
  rw [FS.move]
  cases fs.lookup s with
  | none => rfl
  | some e =>
      by_cases h : fs.contains x = true
      · rw [h]
        rw [FS.contains] at h ⊢
        rw [List.any_eq_true] at h ⊢
        obtain ⟨kv, hmem, hkv⟩ := h
        refine ⟨kv, ?_, hkv⟩
        apply List.mem_cons_of_mem
        apply List.mem_filter.mpr
        refine ⟨hmem, ?_⟩
        have hx : kv.1 = x := by simpa using hkv
        simp [hx, hxs, hxt]
      · have h' : fs.contains x = false := by simpa using h
        rw [h']
        rw [FS.contains] at h' ⊢
        rw [List.any_eq_false] at h' ⊢
        intro kv hkv
        rcases List.mem_cons.mp hkv with rfl | hkv
        · simpa using fun hc => hxt hc.symm
        · exact h' kv (List.mem_of_mem_filter hkv)

/-- A write leaves unrelated paths untouched. -/
theorem FS.contains_write_other {fs : FS} {pa c x : String} (hx : x ≠ pa) :
    (fs.write pa c).contains x = fs.contains x := by
  rw [FS.write]
  by_cases h : fs.contains x = true
  · rw [h]
    rw [FS.contains] at h ⊢
    rw [List.any_eq_true] at h ⊢
    obtain ⟨kv, hmem, hkv⟩ := h
    refine ⟨kv, ?_, hkv⟩
    apply List.mem_cons_of_mem
    apply List.mem_filter.mpr
    refine ⟨hmem, ?_⟩
    have hk : kv.1 = x := by simpa using hkv
    simp [hk, hx]
  · have h' : fs.contains x = false := by simpa using h
    rw [h']
    rw [FS.contains] at h' ⊢
    rw [List.any_eq_false] at h' ⊢
    intro kv hkv
    rcases List.mem_cons.mp hkv with rfl | hkv
    · simpa using fun hc => hx hc.symm
    · exact h' kv (List.mem_of_mem_filter hkv)

/-- The written path exists after a write. -/
theorem FS.contains_write_self (fs : FS) (pa c : String) :
    (fs.write pa c).contains pa = true := by
  simp [FS.write, FS.contains]

/-! ### Step lemmas for the Mac and Freedesktop movers -/

/-- A falsy or missing path is skipped by the Mac step with no change. -/
theorem macStep_skip {env : Env} {trash_dir : String} {fs : FS} {p : String}
    (h : p = "" ∨ fs.contains p = false) :
    macStep env trash_dir fs p = (fs, false, []) := by
  rw [macStep, if_pos]
  rcases h with h | h <;> simp [h]

/-- A falsy or missing path is skipped by the Freedesktop step with no
change. -/
theorem fdStep_skip {env : Env} {files_dir info_dir stamp : String} {fs : FS}
    {p : String} (h : p = "" ∨ fs.contains p = false) :
    fdStep env files_dir info_dir stamp fs p = (fs, false, []) := by
  rw [fdStep, if_pos]
  rcases h with h | h <;> simp [h]

/-- Exhaustive description of one Freedesktop step: either nothing happens
and the path fails, or the file moves to a fresh slash-free name under
`files_dir` and the step then either fails on the metadata write or
succeeds after writing the info record. -/
theorem fdStep_cases (env : Env) (files_dir info_dir stamp : String) (fs : FS)
    (p : String) (hfd1 : strEndsSlash files_dir = false) (hfd2 : files_dir ≠ "") :
    fdStep env files_dir info_dir stamp fs p = (fs, false, []) ∨
    ∃ nm, '/' ∉ nm.data ∧ fs.contains p = true ∧
      fs.contains (pathJoin files_dir nm) = false ∧
      ((env.writeFail (pathJoin info_dir (nm ++ ".trashinfo")) = true ∧
        fdStep env files_dir info_dir stamp fs p =
          (fs.move p (pathJoin files_dir nm), false,
            [Eff.move p (pathJoin files_dir nm)])) ∨
      (env.writeFail (pathJoin info_dir (nm ++ ".trashinfo")) = false ∧
        fdStep env files_dir info_dir stamp fs p =
          ((fs.move p (pathJoin files_dir nm)).write
              (pathJoin info_dir (nm ++ ".trashinfo")) (infoContent env p stamp),
            true,
            [Eff.move p (pathJoin files_dir nm),
             Eff.write (pathJoin info_dir (nm ++ ".trashinfo"))
               (infoContent env p stamp)]))) := by
  by_cases hskip : p = "" ∨ fs.contains p = false
  · exact Or.inl (fdStep_skip hskip)
  · push_neg at hskip
    obtain ⟨hp1, hp2⟩ := hskip
    have hp2' : fs.contains p = true := by
      cases hc : fs.contains p with
      | false => exact absurd hc hp2
      | true => rfl
    rw [fdStep, if_neg (by simp [hp1, hp2'])]
    cases hudp : unique_dest_path fs.contains files_dir (basenameStr p) with
    | error e => exact Or.inl rfl
    | ok dest =>
        obtain ⟨hfree, nm, rfl, hnm⟩ :=
          unique_dest_path_shape hudp (no_slash_basenameStr p)
        dsimp only
        by_cases hmv : env.moveFail p = true
        · rw [if_pos hmv]
          exact Or.inl rfl
        · rw [if_neg hmv]
          have hbn : basenameStr (pathJoin files_dir nm) = nm :=
            basenameStr_pathJoin hfd1 hfd2 hnm
          rw [hbn]
          by_cases hwf : env.writeFail (pathJoin info_dir (nm ++ ".trashinfo")) = true
          · rw [if_pos hwf]
            exact Or.inr ⟨nm, hnm, hp2', hfree, Or.inl ⟨hwf, rfl⟩⟩
          · rw [if_neg hwf]
            refine Or.inr ⟨nm, hnm, hp2', hfree, Or.inr ⟨?_, rfl⟩⟩
            cases hw : env.writeFail (pathJoin info_dir (nm ++ ".trashinfo")) with
            | false => rfl
            | true => exact absurd hw hwf

/-- Unfolding equation for one loop iteration. -/
theorem runLoop_cons (step : FS → String → FS × Bool × List Eff) (fs : FS)
    (q : String) (rest : List String) :
    runLoop step fs (q :: rest) =
      ((runLoop step (step fs q).1 rest).1,
        if (step fs q).2.1 then q :: (runLoop step (step fs q).1 rest).2.1
          else (runLoop step (step fs q).1 rest).2.1,
        if (step fs q).2.1 then (runLoop step (step fs q).1 rest).2.2.1
          else q :: (runLoop step (step fs q).1 rest).2.2.1,
        (step fs q).2.2 ++ (runLoop step (step fs q).1 rest).2.2.2) := rfl

/-- Every path reported succeeded by the Freedesktop loop had its move and
its metadata write recorded in the effect trace, with matching
disambiguated name and the batch stamp. -/
theorem fdLoop_ok_writes (env : Env) (fd id st : String)
    (hfd1 : strEndsSlash fd = false) (hfd2 : fd ≠ "") :
    ∀ (ps : List String) (fs : FS) (p : String),
      p ∈ (runLoop (fdStep env fd id st) fs ps).2.1 →
      ∃ nm, '/' ∉ nm.data ∧
        Eff.move p (pathJoin fd nm) ∈ (runLoop (fdStep env fd id st) fs ps).2.2.2 ∧
        Eff.write (pathJoin id (nm ++ ".trashinfo")) (infoContent env p st) ∈
          (runLoop (fdStep env fd id st) fs ps).2.2.2 := by
  intro ps
  induction ps with
  | nil =>
      intro fs p h
      simp [runLoop] at h
  | cons q rest ih =>
      intro fs p hp
      rcases fdStep_cases env fd id st fs q hfd1 hfd2 with hq |
        ⟨nm, hnm, hcq, hfree, ⟨hwf, hq⟩ | ⟨hwf, hq⟩⟩
      · rw [runLoop_cons, hq] at hp ⊢
        dsimp only at hp ⊢
        obtain ⟨nm, hnm, hmv, hwr⟩ := ih _ _ hp
        exact ⟨nm, hnm, by simp [hmv], by simp [hwr]⟩
      · rw [runLoop_cons, hq] at hp ⊢
        dsimp only at hp ⊢
        obtain ⟨nm', hnm', hmv, hwr⟩ := ih _ _ hp
        exact ⟨nm', hnm', by simp [hmv], by simp [hwr]⟩
      · rw [runLoop_cons, hq] at hp ⊢
        dsimp only at hp ⊢
        rcases List.mem_cons.mp hp with rfl | hp
        · exact ⟨nm, hnm, by simp, by simp⟩
        · obtain ⟨nm', hnm', hmv, hwr⟩ := ih _ _ hp
          exact ⟨nm', hnm', by simp [hmv], by simp [hwr]⟩

/-- Every metadata record in the Freedesktop trace was written with the one
batch stamp. -/
theorem fdLoop_write_shape (env : Env) (fd id st : String)
    (hfd1 : strEndsSlash fd = false) (hfd2 : fd ≠ "") :
    ∀ (ps : List String) (fs : FS) (pa c : String),
      Eff.write pa c ∈ (runLoop (fdStep env fd id st) fs ps).2.2.2 →
      ∃ q, c = infoContent env q st := by
  intro ps
  induction ps with
  | nil =>
      intro fs pa c h
      simp [runLoop] at h
  | cons q rest ih =>
      intro fs pa c hw
      rcases fdStep_cases env fd id st fs q hfd1 hfd2 with hq |
        ⟨nm, hnm, hcq, hfree, ⟨hwf, hq⟩ | ⟨hwf, hq⟩⟩
      · rw [runLoop_cons, hq] at hw
        dsimp only at hw
        rw [List.nil_append] at hw
        exact ih _ _ _ hw
      · rw [runLoop_cons, hq] at hw
        dsimp only at hw
        rcases List.mem_append.mp hw with hw | hw
        · simp at hw
        · exact ih _ _ _ hw
      · rw [runLoop_cons, hq] at hw
        dsimp only at hw
        rcases List.mem_append.mp hw with hw | hw
        · rcases List.mem_cons.mp hw with hw | hw
          · simp at hw
          · rcases List.mem_cons.mp hw with hw | hw
            · cases hw
              exact ⟨q, rfl⟩
            · simp at hw
        · exact ih _ _ _ hw

/-- Every move in the Freedesktop trace has its source among the processed
paths and its target under `files_dir/`. -/
theorem fdLoop_move_shape (env : Env) (fd id st : String)
    (hfd1 : strEndsSlash fd = false) (hfd2 : fd ≠ "") :
    ∀ (ps : List String) (fs : FS) (s t : String),
      Eff.move s t ∈ (runLoop (fdStep env fd id st) fs ps).2.2.2 →
      s ∈ ps ∧ strStartsWith t (fd ++ "/") = true := by
  intro ps
  induction ps with
  | nil =>
      intro fs s t h
      simp [runLoop] at h
  | cons q rest ih =>
      intro fs s t hm
      rcases fdStep_cases env fd id st fs q hfd1 hfd2 with hq |
        ⟨nm, hnm, hcq, hfree, ⟨hwf, hq⟩ | ⟨hwf, hq⟩⟩
      · rw [runLoop_cons, hq] at hm
        dsimp only at hm
        rw [List.nil_append] at hm
        obtain ⟨hs, ht⟩ := ih _ _ _ hm
        exact ⟨List.mem_cons_of_mem _ hs, ht⟩
      · rw [runLoop_cons, hq] at hm
        dsimp only at hm
        rcases List.mem_append.mp hm with hm | hm
        · rcases List.mem_cons.mp hm with hm | hm
          · cases hm
            exact ⟨List.mem_cons_self _ _, strStartsWith_pathJoin hfd1 hfd2 hnm⟩
          · simp at hm
        · obtain ⟨hs, ht⟩ := ih _ _ _ hm
          exact ⟨List.mem_cons_of_mem _ hs, ht⟩
      · rw [runLoop_cons, hq] at hm
        dsimp only at hm
        rcases List.mem_append.mp hm with hm | hm
        · rcases List.mem_cons.mp hm with hm | hm
          · cases hm
            exact ⟨List.mem_cons_self _ _, strStartsWith_pathJoin hfd1 hfd2 hnm⟩
          · simp at hm
        · obtain ⟨hs, ht⟩ := ih _ _ _ hm
          exact ⟨List.mem_cons_of_mem _ hs, ht⟩

/-- With every metadata write failing and no input path reaching into
`files_dir/`, the Freedesktop loop preserves both the presence of a path
under `files_dir/` and the absence of a path outside it. -/
theorem fdLoop_preserves (env : Env) (fd id st : String)
    (hfd1 : strEndsSlash fd = false) (hfd2 : fd ≠ "")
    (hw : ∀ x, env.writeFail x = true) :
    ∀ (ps : List String) (fs : FS) (d p : String),
      (∀ q ∈ ps, strStartsWith q (fd ++ "/") = false) →
      strStartsWith d (fd ++ "/") = true →
      strStartsWith p (fd ++ "/") = false →
      fs.contains d = true → fs.contains p = false →
      (runLoop (fdStep env fd id st) fs ps).1.contains d = true ∧
        (runLoop (fdStep env fd id st) fs ps).1.contains p = false := by
  intro ps
  induction ps with
  | nil =>
      intro fs d p _ _ _ hd hp
      exact ⟨hd, hp⟩
  | cons q rest ih =>
      intro fs d p hqs hdpre hppre hd hp
      have hqrest : ∀ x ∈ rest, strStartsWith x (fd ++ "/") = false :=
        fun x hx => hqs x (List.mem_cons_of_mem _ hx)
      have hqpre : strStartsWith q (fd ++ "/") = false := hqs q (List.mem_cons_self _ _)
      rcases fdStep_cases env fd id st fs q hfd1 hfd2 with hq |
        ⟨nm, hnm, hcq, hfree, ⟨hwf, hq⟩ | ⟨hwf, hq⟩⟩
      · rw [runLoop_cons, hq]
        dsimp only
        exact ih _ d p hqrest hdpre hppre hd hp
      · rw [runLoop_cons, hq]
        dsimp only
        have hdq : d ≠ q := by
          intro hEq
          rw [hEq] at hdpre
          rw [hdpre] at hqpre
          cases hqpre
        have hddest : d ≠ pathJoin fd nm := by
          intro hEq
          rw [hEq] at hd
          rw [hd] at hfree
          cases hfree
        have hpq : p ≠ q := by
          intro hEq
          rw [hEq] at hp
          rw [hp] at hcq
          cases hcq
        have hpdest : p ≠ pathJoin fd nm := by
          intro hEq
          have := strStartsWith_pathJoin hfd1 hfd2 hnm
          rw [← hEq] at this
          rw [this] at hppre
          cases hppre
        have hd1 : (fs.move q (pathJoin fd nm)).contains d = true := by
          rw [FS.contains_move_other hdq hddest]
          exact hd
        have hp1 : (fs.move q (pathJoin fd nm)).contains p = false := by
          rw [FS.contains_move_other hpq hpdest]
          exact hp
        exact ih _ d p hqrest hdpre hppre hd1 hp1
      · rw [hw (pathJoin id (nm ++ ".trashinfo"))] at hwf
        cases hwf

/-- With every metadata write failing, the Freedesktop loop reports no
success, fails every path, and leaves each moved file at its destination
with its source gone. -/
theorem fdLoop_writefail (env : Env) (fd id st : String)
    (hfd1 : strEndsSlash fd = false) (hfd2 : fd ≠ "")
    (hw : ∀ x, env.writeFail x = true) :
    ∀ (ps : List String) (fs : FS),
      (∀ q ∈ ps, strStartsWith q (fd ++ "/") = false) →
      (runLoop (fdStep env fd id st) fs ps).2.1 = [] ∧
      (runLoop (fdStep env fd id st) fs ps).2.2.1 = ps ∧
      ∀ s t, Eff.move s t ∈ (runLoop (fdStep env fd id st) fs ps).2.2.2 →
        (runLoop (fdStep env fd id st) fs ps).1.contains t = true ∧
        (runLoop (fdStep env fd id st) fs ps).1.contains s = false := by
  intro ps
  induction ps with
  | nil =>
      intro fs _
      refine ⟨rfl, rfl, ?_⟩
      intro s t h
      simp [runLoop] at h
  | cons q rest ih =>
      intro fs hqs
      have hqrest : ∀ x ∈ rest, strStartsWith x (fd ++ "/") = false :=
        fun x hx => hqs x (List.mem_cons_of_mem _ hx)
      have hqpre : strStartsWith q (fd ++ "/") = false := hqs q (List.mem_cons_self _ _)
      rcases fdStep_cases env fd id st fs q hfd1 hfd2 with hq |
        ⟨nm, hnm, hcq, hfree, ⟨hwf, hq⟩ | ⟨hwf, hq⟩⟩
      · rw [runLoop_cons, hq]
        dsimp only
        obtain ⟨hok, hfail, hmv⟩ := ih _ hqrest
        refine ⟨hok, by simp [hfail], ?_⟩
        intro s t hm
        exact hmv s t hm
      · rw [runLoop_cons, hq]
        dsimp only
        obtain ⟨hok, hfail, hmv⟩ := ih _ hqrest
        refine ⟨hok, by simp [hfail], ?_⟩
        intro s t hm
        rcases List.mem_cons.mp hm with hm | hm
        · cases hm
          have hqdest : q ≠ pathJoin fd nm := by
            intro hEq
            rw [hEq] at hcq
            rw [hcq] at hfree
            cases hfree
          have ht1 : (fs.move q (pathJoin fd nm)).contains (pathJoin fd nm) = true :=
            FS.contains_move_target hcq
          have hs1 : (fs.move q (pathJoin fd nm)).contains q = false :=
            FS.contains_move_src hcq hqdest
          exact fdLoop_preserves env fd id st hfd1 hfd2 hw rest _ _ _ hqrest
            (strStartsWith_pathJoin hfd1 hfd2 hnm) hqpre ht1 hs1
        · exact hmv s t hm
      · rw [hw (pathJoin id (nm ++ ".trashinfo"))] at hwf
        cases hwf

/-- Characterisation of `find?` over `range'`: the first index satisfying
the predicate is returned. -/
theorem find_range' (f : Nat → Bool) :
    ∀ (n s i : Nat), s ≤ i → i < s + n → f i = true →
      (∀ j, s ≤ j → j < i → f j = false) →
      (List.range' s n).find? f = some i := by
  intro n
  induction n with
  | zero =>
      intro s i h1 h2 _ _
      omega
  | succ n ih =>
      intro s i h1 h2 hf hprev
      rw [List.range'_succ]
      by_cases hsi : i = s
      · subst hsi
        rw [List.find?_cons_of_pos _ hf]
      · have hs : f s = false := hprev s (Nat.le_refl s) (by omega)
        rw [List.find?_cons_of_neg _ (by simp [hs])]
        exact ih (s + 1) i (by omega) (by omega) hf
          (fun j hj1 hj2 => hprev j (by omega) hj2)

/-- Partition facts for a per-file loop on a duplicate-free input. -/
theorem loop_partition_facts (step : FS → String → FS × Bool × List Eff)
    (ps : List String) (fs : FS) (hnd : ps.Nodup) :
    (runLoop step fs ps).2.1.Nodup ∧ (runLoop step fs ps).2.2.1.Nodup ∧
    (∀ p ∈ (runLoop step fs ps).2.1, p ∉ (runLoop step fs ps).2.2.1) ∧
    (∀ p, p ∈ (runLoop step fs ps).2.1 ∨ p ∈ (runLoop step fs ps).2.2.1 → p ∈ ps) ∧
    (∀ p ∈ ps, p ∈ (runLoop step fs ps).2.1 ∨ p ∈ (runLoop step fs ps).2.2.1) := by
  have hperm := runLoop_perm step ps fs
  have hnd2 : ((runLoop step fs ps).2.1 ++ (runLoop step fs ps).2.2.1).Nodup :=
    hperm.symm.nodup hnd
  obtain ⟨hok, hfail, hdisj⟩ := List.nodup_append.mp hnd2
  refine ⟨hok, hfail, hdisj, ?_, ?_⟩
  · intro p hp
    have : p ∈ (runLoop step fs ps).2.1 ++ (runLoop step fs ps).2.2.1 := by
      rcases hp with hp | hp
      · exact List.mem_append.mpr (Or.inl hp)
      · exact List.mem_append.mpr (Or.inr hp)
    exact hperm.mem_iff.mp this
  · intro p hp
    have : p ∈ (runLoop step fs ps).2.1 ++ (runLoop step fs ps).2.2.1 :=
      hperm.mem_iff.mpr hp
    exact List.mem_append.mp this

/-- Conclusions of the partition claim that follow from the loop
permutation alone: membership soundness holds for every input, and
disjointness plus duplicate-freeness follow whenever the processed list is
duplicate-free. -/
theorem perm_partition_facts {ok failed ps : List String}
    (hperm : (ok ++ failed).Perm ps) :
    (∀ p, p ∈ ok ∨ p ∈ failed → p ∈ ps) ∧
    (ps.Nodup → ok.Nodup ∧ failed.Nodup ∧ ∀ p ∈ ok, p ∉ failed) := by
  constructor
  · intro p hp
    apply hperm.mem_iff.mp
    rcases hp with hp | hp
    · exact List.mem_append.mpr (Or.inl hp)
    · exact List.mem_append.mpr (Or.inr hp)
  · intro hnd
    have hnd2 := hperm.symm.nodup hnd
    exact List.nodup_append.mp hnd2

/-! ### Claim theorems -/

/-- Claim C2 (amended): non-existent (or falsy) inputs are reported in
`failed` only when no input path exists — then the Windows mover returns
`([], all input paths)`; when at least one input exists, non-existent
inputs appear in neither `succeeded` nor `failed`. -/
theorem claim2_windows_missing (fs : FS) (ret : Int) (aborted : Bool)
    (paths : List String) :
    (paths.filter (fun p => p ≠ "" && fs.contains p) = [] →
      trash_windows fs ret aborted paths = (fs, [], paths)) ∧
    (paths.filter (fun p => p ≠ "" && fs.contains p) ≠ [] →
      ∀ p ∈ paths, (p = "" ∨ fs.contains p = false) →
        p ∉ (trash_windows fs ret aborted paths).2.1 ∧
        p ∉ (trash_windows fs ret aborted paths).2.2) := by
  constructor
  · intro h
    rw [trash_windows]
    rw [if_pos (List.isEmpty_iff.mpr h)]
  · intro h p hp hmiss
    have hnotex : p ∉ paths.filter (fun p => p ≠ "" && fs.contains p) := by
      intro hmem
      have := (List.mem_filter.mp hmem).2
      simp only [Bool.and_eq_true, decide_eq_true_eq] at this
      rcases hmiss with hm | hm
      · exact this.1 hm
      · rw [this.2] at hm
        cases hm
    rw [trash_windows]
    rw [if_neg (fun hc => h (List.isEmpty_iff.mp hc))]
    by_cases hfail : (ret ≠ 0 || aborted) = true
    · rw [if_pos hfail]
      exact ⟨by simp, hnotex⟩
    · rw [if_neg hfail]
      exact ⟨hnotex, by simp⟩

/-- Claim C2 counterexample: with `"a"` existing and `"b"` missing, the
batched call succeeding, the missing path `"b"` is reported in neither
list — in particular not in `failed`, contradicting the claim as stated. -/
theorem claim2_counterexample :
    FS.contains ⟨[("a", Entry.file "x")]⟩ "b" = false ∧
    trash_windows ⟨[("a", Entry.file "x")]⟩ 0 false ["a", "b"] =
      (FS.removeAll ⟨[("a", Entry.file "x")]⟩ ["a"], ["a"], []) ∧
    "b" ∉ (trash_windows ⟨[("a", Entry.file "x")]⟩ 0 false ["a", "b"]).2.2 := by
  exact ⟨rfl, rfl, by decide⟩

/-- Claim C3: with at least one existing input, a nonzero return code or a
set aborted flag fails every existing path with no success, while a clean
return succeeds every existing path with no failure. -/
theorem claim3_windows_batch (fs : FS) (ret : Int) (aborted : Bool)
    (paths : List String)
    (hne : paths.filter (fun p => p ≠ "" && fs.contains p) ≠ []) :
    ((ret ≠ 0 ∨ aborted = true) →
      trash_windows fs ret aborted paths =
        (fs, [], paths.filter (fun p => p ≠ "" && fs.contains p))) ∧
    (ret = 0 → aborted = false →
      trash_windows fs ret aborted paths =
        (fs.removeAll (paths.filter (fun p => p ≠ "" && fs.contains p)),
          paths.filter (fun p => p ≠ "" && fs.contains p), [])) := by
  constructor
  · intro h
    rw [trash_windows]
    rw [if_neg (fun hc => hne (List.isEmpty_iff.mp hc))]
    rw [if_pos (by rcases h with h | h <;> simp [h])]
  · intro h1 h2
    rw [trash_windows]
    rw [if_neg (fun hc => hne (List.isEmpty_iff.mp hc))]
    rw [if_neg (by simp [h1, h2])]

/-- Witness for C3: concrete failing and succeeding batched calls. -/
theorem claim3_windows_batch_witness :
    trash_windows ⟨[("a", Entry.file "x")]⟩ 1 false ["a", "b"] =
      (⟨[("a", Entry.file "x")]⟩, [], ["a"]) ∧
    trash_windows ⟨[("a", Entry.file "x")]⟩ 0 false ["a", "b"] =
      (FS.removeAll ⟨[("a", Entry.file "x")]⟩ ["a"], ["a"], []) :=
  ⟨(claim3_windows_batch ⟨[("a", Entry.file "x")]⟩ 1 false ["a", "b"]
      (by decide)).1 (Or.inl (by decide)),
    (claim3_windows_batch ⟨[("a", Entry.file "x")]⟩ 0 false ["a", "b"]
      (by decide)).2 rfl rfl⟩

/-- Witness for C2 (amended): a call where nothing exists fails everything,
and a mixed call drops the missing path from both lists. -/
theorem claim2_windows_missing_witness :
    trash_windows ⟨[]⟩ 0 false ["x"] = (⟨[]⟩, [], ["x"]) ∧
    ("b" ∉ (trash_windows ⟨[("a", Entry.file "x")]⟩ 0 false ["a", "b"]).2.1 ∧
      "b" ∉ (trash_windows ⟨[("a", Entry.file "x")]⟩ 0 false ["a", "b"]).2.2) :=
  ⟨(claim2_windows_missing ⟨[]⟩ 0 false ["x"]).1 (by decide),
    (claim2_windows_missing ⟨[("a", Entry.file "x")]⟩ 0 false ["a", "b"]).2
      (by decide) "b" (by decide) (Or.inr (by decide))⟩

/-- Claim C4: the destination namer returns `dir/base` when free, otherwise
the first free `dir/{stem}.{i}{ext}` probing `i = 1..9999` in increasing
order, and raises when every candidate exists; in particular with
`photo.jpg` existing it yields `photo.1.jpg`, and with `photo.1.jpg` also
existing it yields `photo.2.jpg`. -/
theorem claim4_unique_dest (ex : String → Bool) (dir base : String) :
    (ex (pathJoin dir base) = false →
      unique_dest_path ex dir base = .ok (pathJoin dir base)) ∧
    (∀ i, ex (pathJoin dir base) = true → 1 ≤ i → i ≤ 9999 →
      ex (destCand dir base i) = false →
      (∀ j, 1 ≤ j → j < i → ex (destCand dir base j) = true) →
      unique_dest_path ex dir base = .ok (destCand dir base i)) ∧
    (ex (pathJoin dir base) = true →
      (∀ i, 1 ≤ i → i ≤ 9999 → ex (destCand dir base i) = true) →
      unique_dest_path ex dir base = .error ()) ∧
    unique_dest_path (fun s => s == "t/photo.jpg") "t" "photo.jpg" =
      .ok "t/photo.1.jpg" ∧
    unique_dest_path (fun s => s == "t/photo.jpg" || s == "t/photo.1.jpg") "t"
      "photo.jpg" = .ok "t/photo.2.jpg" := by
  refine ⟨?_, ?_, ?_, rfl, rfl⟩
  · intro h
    rw [unique_dest_path, if_pos (by simp [h])]
  · intro i hex h1 h2 hfree hprev
    rw [unique_dest_path, if_neg (by simp [hex])]
    have hfind : (List.range' 1 9999).find?
        (fun i => !(ex (destCand dir base i))) = some i := by
      apply find_range' _ 9999 1 i h1 (by omega) (by simp [hfree])
      intro j hj1 hj2
      simp [hprev j hj1 hj2]
    rw [hfind]
  · intro hex hall
    rw [unique_dest_path, if_neg (by simp [hex])]
    have hfind : (List.range' 1 9999).find?
        (fun i => !(ex (destCand dir base i))) = none := by
      rw [List.find?_eq_none]
      intro x hx
      rw [List.mem_range'] at hx
      obtain ⟨k, hk, rfl⟩ := hx
      have hx2 := hall (1 + 1 * k) (by omega) (by omega)
      simpa using hx2
    rw [hfind]

/-- Witness for C4: each probing branch at a concrete input. -/
theorem claim4_unique_dest_witness :
    unique_dest_path (fun _ => false) "d" "b.txt" = .ok (pathJoin "d" "b.txt") ∧
    unique_dest_path (fun s => s == "t/photo.jpg") "t" "photo.jpg" =
      .ok (destCand "t" "photo.jpg" 1) ∧
    unique_dest_path (fun _ => true) "d" "b.txt" = .error () :=
  ⟨(claim4_unique_dest (fun _ => false) "d" "b.txt").1 rfl,
    ((claim4_unique_dest (fun s => s == "t/photo.jpg") "t" "photo.jpg").2.1 1
      (by decide) (by decide) (by decide) (by decide)
      (fun j hj1 hj2 => absurd (Nat.lt_of_lt_of_le hj2 hj1) (Nat.lt_irrefl j))),
    ((claim4_unique_dest (fun _ => true) "d" "b.txt").2.2.1 rfl
      (fun i _ _ => rfl))⟩

/-- Claim C7 (amended): a pre-existing `{homeDir}/.Trash` directory causes
no error and the loop runs on the unchanged filesystem; any other creation
failure is NOT caught — the mover raises, aborting the batch with no
partition returned. -/
theorem claim7_mac_mkdir (env : Env) (fs : FS) (ps : List String)
    (home_dir : Option String) :
    (fs.containsDir (pathJoin (resolveHome env home_dir) ".Trash") = true →
      trash_macos env fs ps home_dir =
        .ok (runLoop (macStep env (pathJoin (resolveHome env home_dir) ".Trash"))
          fs ps)) ∧
    (fs.containsDir (pathJoin (resolveHome env home_dir) ".Trash") = false →
      fs.contains (pathJoin (resolveHome env home_dir) ".Trash") = false →
      env.mkdirFail (pathJoin (resolveHome env home_dir) ".Trash") = true →
      trash_macos env fs ps home_dir = .error ()) := by
  constructor
  · intro h
    rw [trash_macos, makedirs, if_pos h]
  · intro h1 h2 h3
    rw [trash_macos, makedirs, if_neg (by simp [h1]), if_neg (by simp [h2]),
      if_pos h3]

/-- Witness for C7 (amended): an existing trash directory is reused without
error; a failing creation escapes as an exception. -/
theorem claim7_mac_mkdir_witness :
    trash_macos env0 ⟨[("h/.Trash", Entry.dir)]⟩ ["a"] (some "h") =
      .ok (runLoop (macStep env0 (pathJoin "h" ".Trash"))
        ⟨[("h/.Trash", Entry.dir)]⟩ ["a"]) ∧
    trash_macos { env0 with mkdirFail := fun _ => true } ⟨[]⟩ ["a"] (some "h") =
      .error () :=
  ⟨(claim7_mac_mkdir env0 ⟨[("h/.Trash", Entry.dir)]⟩ ["a"] (some "h")).1
      (by decide),
    (claim7_mac_mkdir { env0 with mkdirFail := fun _ => true } ⟨[]⟩ ["a"]
      (some "h")).2 (by decide) (by decide) rfl⟩

/-- Claim C7 counterexample: a trash-directory creation failure makes the
Mac mover raise instead of returning a `(succeeded, failed)` partition,
contradicting "caught per-call and does not abort the batch". -/
theorem claim7_counterexample :
    trash_macos { env0 with mkdirFail := fun _ => true } ⟨[]⟩ ["a"] (some "h") =
      .error () := rfl

/-- Claim C9 (amended): when its input paths are missing or falsy, the Mac
mover fails all of them; it leaves the filesystem untouched whenever the
trash directory already exists, and otherwise creates exactly the trash
directory entry. -/
theorem claim9_mac_missing (env : Env) (fs : FS) (ps : List String)
    (home_dir : Option String) :
    (fs.containsDir (pathJoin (resolveHome env home_dir) ".Trash") = true →
      (∀ p ∈ ps, p = "" ∨ fs.contains p = false) →
      trash_macos env fs ps home_dir = .ok (fs, [], ps, [])) ∧
    (fs.containsDir (pathJoin (resolveHome env home_dir) ".Trash") = false →
      fs.contains (pathJoin (resolveHome env home_dir) ".Trash") = false →
      env.mkdirFail (pathJoin (resolveHome env home_dir) ".Trash") = false →
      (∀ p ∈ ps, p = "" ∨
        (fs.addDir (pathJoin (resolveHome env home_dir) ".Trash")).contains p =
          false) →
      trash_macos env fs ps home_dir =
        .ok (fs.addDir (pathJoin (resolveHome env home_dir) ".Trash"), [], ps,
          [])) := by
  constructor
  · intro h hall
    rw [trash_macos, makedirs, if_pos h]
    dsimp only
    rw [runLoop_allskip _ _ _ (fun p hp => macStep_skip (hall p hp))]
  · intro h1 h2 h3 hall
    rw [trash_macos, makedirs, if_neg (by simp [h1]), if_neg (by simp [h2]),
      if_neg (by simp [h3])]
    dsimp only
    rw [runLoop_allskip _ _ _ (fun p hp => macStep_skip (hall p hp))]

/-- Witness for C9 (amended): a missing path is failed with no new entries
when the trash directory pre-exists, and with exactly the new trash
directory when it does not. -/
theorem claim9_mac_missing_witness :
    trash_macos env0 ⟨[("h/.Trash", Entry.dir)]⟩ ["p"] (some "h") =
      .ok (⟨[("h/.Trash", Entry.dir)]⟩, [], ["p"], []) ∧
    trash_macos env0 ⟨[]⟩ ["p"] (some "h") =
      .ok (FS.addDir ⟨[]⟩ (pathJoin "h" ".Trash"), [], ["p"], []) :=
  ⟨(claim9_mac_missing env0 ⟨[("h/.Trash", Entry.dir)]⟩ ["p"] (some "h")).1
      (by decide) (by decide),
    (claim9_mac_missing env0 ⟨[]⟩ ["p"] (some "h")).2 (by decide) (by decide)
      rfl (by decide)⟩

/-- Claim C9 counterexample: trashing a missing path with no pre-existing
trash directory does create a directory entry, contradicting "no directory
entries are created". -/
theorem claim9_counterexample :
    trash_macos env0 ⟨[]⟩ ["p"] (some "h") =
      .ok (⟨[("h/.Trash", Entry.dir)]⟩, [], ["p"], []) ∧
    (⟨[("h/.Trash", Entry.dir)]⟩ : FS) ≠ (⟨[]⟩ : FS) := by
  exact ⟨rfl, by decide⟩

/-- Claim C8: any platform identifier prefixed by `win` routes to the
Windows mover, exactly `darwin` routes to the Mac mover, every other
identifier routes to the Freedesktop mover, and an absent identifier falls
back to the runtime platform `sys.platform`. -/
theorem claim8_dispatch (env : Env) (fs : FS) (paths : List String)
    (home_dir : Option String) (now : Option Nat)
    (hne : (paths.filter (fun p => p ≠ "")).isEmpty = false) :
    (∀ s : String, s ≠ "" → strStartsWith s "win" = true →
      send_paths_to_trash env fs paths (some s) home_dir now =
        .ok ((trash_windows fs env.winRet env.winAborted
            (paths.filter (fun p => p ≠ ""))).1,
          (trash_windows fs env.winRet env.winAborted
            (paths.filter (fun p => p ≠ ""))).2.1,
          (trash_windows fs env.winRet env.winAborted
            (paths.filter (fun p => p ≠ ""))).2.2, [])) ∧
    (send_paths_to_trash env fs paths (some "darwin") home_dir now =
      trash_macos env fs (paths.filter (fun p => p ≠ "")) home_dir) ∧
    (∀ s : String, s ≠ "" → strStartsWith s "win" = false → s ≠ "darwin" →
      send_paths_to_trash env fs paths (some s) home_dir now =
        trash_freedesktop env fs (paths.filter (fun p => p ≠ "")) home_dir now) ∧
    (send_paths_to_trash env fs paths none home_dir now =
      send_paths_to_trash env fs paths (some env.sysPlatform) home_dir now) := by
  have heffnone : effPlatform env none = env.sysPlatform := rfl
  refine ⟨?_, ?_, ?_, ?_⟩
  · intro s hs hw
    have heff : effPlatform env (some s) = s := by simp [effPlatform, hs]
    rw [send_paths_to_trash, heff]
    rw [if_neg (by intro hc; rw [hc] at hne; exact Bool.noConfusion hne), if_pos hw]
  · have heff : effPlatform env (some "darwin") = "darwin" := by
      simp [effPlatform]
    rw [send_paths_to_trash, heff]
    rw [if_neg (by intro hc; rw [hc] at hne; exact Bool.noConfusion hne), if_neg (by decide), if_pos rfl]
  · intro s hs hw hd
    have heff : effPlatform env (some s) = s := by simp [effPlatform, hs]
    rw [send_paths_to_trash, heff]
    rw [if_neg (by intro hc; rw [hc] at hne; exact Bool.noConfusion hne), if_neg (by simp [hw]), if_neg (by simp [hd])]
  · have heff2 : effPlatform env (some env.sysPlatform) = env.sysPlatform := by
      by_cases h : env.sysPlatform = ""
      · simp [effPlatform, h]
      · simp [effPlatform, h]
    rw [send_paths_to_trash, send_paths_to_trash, heffnone, heff2]

/-- Witness for C8: the four routes at concrete identifiers. -/
theorem claim8_dispatch_witness :
    (send_paths_to_trash env0 ⟨[]⟩ ["p"] (some "win32") none none =
      .ok ((trash_windows ⟨[]⟩ env0.winRet env0.winAborted ["p"]).1,
        (trash_windows ⟨[]⟩ env0.winRet env0.winAborted ["p"]).2.1,
        (trash_windows ⟨[]⟩ env0.winRet env0.winAborted ["p"]).2.2, [])) ∧
    (send_paths_to_trash env0 ⟨[]⟩ ["p"] (some "darwin") (some "h") none =
      trash_macos env0 ⟨[]⟩ ["p"] (some "h")) ∧
    (send_paths_to_trash env0 ⟨[]⟩ ["p"] (some "freebsd") (some "h") none =
      trash_freedesktop env0 ⟨[]⟩ ["p"] (some "h") none) ∧
    (send_paths_to_trash env0 ⟨[]⟩ ["p"] none (some "h") none =
      send_paths_to_trash env0 ⟨[]⟩ ["p"] (some env0.sysPlatform) (some "h") none) :=
  ⟨(claim8_dispatch env0 ⟨[]⟩ ["p"] none none (by decide)).1 "win32" (by decide)
      (by decide),
    (claim8_dispatch env0 ⟨[]⟩ ["p"] (some "h") none (by decide)).2.1,
    (claim8_dispatch env0 ⟨[]⟩ ["p"] (some "h") none (by decide)).2.2.1 "freebsd"
      (by decide) (by decide) (by decide),
    (claim8_dispatch env0 ⟨[]⟩ ["p"] (some "h") none (by decide)).2.2.2⟩

/-- Claim C1 (amended): whenever a dispatch call returns, every reported
path comes from the normalized input (falsy entries dropped, `str` the
identity on strings) — unconditionally, duplicates included; on the
non-Windows routes `succeeded` and `failed` together cover the normalized
input exactly (as a multiset, so each input occurrence is reported once);
and when the normalized input is duplicate-free, `succeeded` and `failed`
are disjoint and each duplicate-free.  (On the Windows route with a mix of
existing and missing paths, the missing ones are omitted from both lists;
with duplicate inputs a path can be reported twice.) -/
theorem claim1_partition (env : Env) (fs : FS) (paths : List String)
    (platform home_dir : Option String) (now : Option Nat)
    (fs' : FS) (ok failed : List String) (tr : List Eff)
    (hret : send_paths_to_trash env fs paths platform home_dir now =
      .ok (fs', ok, failed, tr)) :
    (∀ p, p ∈ ok ∨ p ∈ failed → p ∈ paths.filter (fun p => p ≠ "")) ∧
    (strStartsWith (effPlatform env platform) "win" = false →
      (ok ++ failed).Perm (paths.filter (fun p => p ≠ ""))) ∧
    ((paths.filter (fun p => p ≠ "")).Nodup →
      ok.Nodup ∧ failed.Nodup ∧ ∀ p ∈ ok, p ∉ failed) := by
  rw [send_paths_to_trash] at hret
  by_cases hemp : (paths.filter (fun p => p ≠ "")).isEmpty = true
  · rw [if_pos hemp] at hret
    injection hret with h'
    simp only [Prod.mk.injEq] at h'
    obtain ⟨-, hok, hfail, -⟩ := h'
    subst hok
    subst hfail
    have hnil := List.isEmpty_iff.mp hemp
    refine ⟨?_, ?_, ?_⟩
    · intro p hp
      rcases hp with hp | hp <;> cases hp
    · intro _
      rw [hnil]
      exact List.Perm.refl _
    · intro _
      exact ⟨List.nodup_nil, List.nodup_nil, by simp⟩
  · rw [if_neg hemp] at hret
    by_cases hwin : strStartsWith (effPlatform env platform) "win" = true
    · rw [if_pos hwin] at hret
      injection hret with h'
      simp only [Prod.mk.injEq] at h'
      obtain ⟨-, hok, hfail, -⟩ := h'
      subst hok
      subst hfail
      have hlast : ¬ strStartsWith (effPlatform env platform) "win" = false := by
        rw [hwin]
        simp
      rw [trash_windows]
      by_cases hex : ((paths.filter (fun p => p ≠ "")).filter
          (fun p => p ≠ "" && fs.contains p)).isEmpty = true
      · rw [if_pos hex]
        refine ⟨?_, fun hc => absurd hc hlast, ?_⟩
        · intro p hp
          rcases hp with hp | hp
          · cases hp
          · exact hp
        · intro hnd
          exact ⟨List.nodup_nil, hnd, by simp⟩
      · rw [if_neg hex]
        by_cases hfl : (env.winRet ≠ 0 || env.winAborted) = true
        · rw [if_pos hfl]
          refine ⟨?_, fun hc => absurd hc hlast, ?_⟩
          · intro p hp
            rcases hp with hp | hp
            · cases hp
            · exact (List.mem_filter.mp hp).1
          · intro hnd
            exact ⟨List.nodup_nil, List.Nodup.filter _ hnd, by simp⟩
        · rw [if_neg hfl]
          refine ⟨?_, fun hc => absurd hc hlast, ?_⟩
          · intro p hp
            rcases hp with hp | hp
            · exact (List.mem_filter.mp hp).1
            · cases hp
          · intro hnd
            exact ⟨List.Nodup.filter _ hnd, List.nodup_nil, by simp⟩
    · rw [if_neg hwin] at hret
      by_cases hdar : effPlatform env platform = "darwin"
      · rw [if_pos hdar] at hret
        rw [trash_macos] at hret
        cases hmk : makedirs env fs
            (pathJoin (resolveHome env home_dir) ".Trash") with
        | error e =>
            rw [hmk] at hret
            exact Except.noConfusion hret
        | ok fs1 =>
            rw [hmk] at hret
            injection hret with h'
            have hperm := runLoop_perm
              (macStep env (pathJoin (resolveHome env home_dir) ".Trash"))
              (paths.filter (fun p => p ≠ "")) fs1
            rw [h'] at hperm
            obtain ⟨f1, f2⟩ := perm_partition_facts hperm
            exact ⟨f1, fun _ => hperm, f2⟩
      · rw [if_neg hdar] at hret
        rw [trash_freedesktop] at hret
        cases hmk1 : makedirs env fs (filesDirOf (resolveHome env home_dir)) with
        | error e =>
            rw [hmk1] at hret
            exact Except.noConfusion hret
        | ok fs1 =>
            rw [hmk1] at hret
            dsimp only at hret
            cases hmk2 : makedirs env fs1 (infoDirOf (resolveHome env home_dir)) with
            | error e =>
                rw [hmk2] at hret
                exact Except.noConfusion hret
            | ok fs2 =>
                rw [hmk2] at hret
                injection hret with h'
                have hperm := runLoop_perm
                  (fdStep env (filesDirOf (resolveHome env home_dir))
                    (infoDirOf (resolveHome env home_dir)) (batchStamp env now))
                  (paths.filter (fun p => p ≠ "")) fs2
                rw [h'] at hperm
                obtain ⟨f1, f2⟩ := perm_partition_facts hperm
                exact ⟨f1, fun _ => hperm, f2⟩

/-- Claim C1 counterexample: on the Windows route with `"a"` existing and
`"b"` missing, the union of the returned lists misses `"b"` although it
survives normalization; and on the Freedesktop route the duplicate input
`["a", "a"]` is double-reported — once succeeded and once failed — so the
lists are not disjoint. -/
theorem claim1_counterexample :
    (send_paths_to_trash env0 ⟨[("a", Entry.file "x")]⟩ ["a", "b"]
        (some "win32") none none = .ok (⟨[]⟩, ["a"], [], []) ∧
      "b" ∈ ["a", "b"].filter (fun p => p ≠ "") ∧
      "b" ∉ (["a"] : List String) ∧ "b" ∉ ([] : List String)) ∧
    (send_paths_to_trash env0 ⟨[("a", Entry.file "x")]⟩ ["a", "a"]
        (some "linux") (some "h") none =
      .ok (⟨[("h/.local/share/Trash/info/a.trashinfo",
              Entry.file "[Trash Info]\nPath=a\nDeletionDate=2024-03-04T05:06:07\n"),
            ("h/.local/share/Trash/files/a", Entry.file "x"),
            ("h/.local/share/Trash/info", Entry.dir),
            ("h/.local/share/Trash/files", Entry.dir)]⟩,
        ["a"], ["a"],
        [Eff.move "a" "h/.local/share/Trash/files/a",
         Eff.write "h/.local/share/Trash/info/a.trashinfo"
           "[Trash Info]\nPath=a\nDeletionDate=2024-03-04T05:06:07\n"]) ∧
      "a" ∈ (["a"] : List String) ∧ "a" ∈ (["a"] : List String)) := by
  exact ⟨⟨rfl, by decide, by decide, by decide⟩, ⟨rfl, by decide, by decide⟩⟩

/-- Witness for C1 (amended): the partition facts at a concrete
Freedesktop call on the duplicate input `["a", "a"]`, so the unconditional
clauses are exercised on a list with duplicates. -/
theorem claim1_partition_witness :
    (∀ p, p ∈ (["a"] : List String) ∨ p ∈ (["a"] : List String) →
      p ∈ ["a", "a"].filter (fun p => p ≠ "")) ∧
    (strStartsWith (effPlatform env0 (some "linux")) "win" = false →
      ((["a"] : List String) ++ ["a"]).Perm
        (["a", "a"].filter (fun p => p ≠ ""))) ∧
    ((["a", "a"].filter (fun p => p ≠ "")).Nodup →
      (["a"] : List String).Nodup ∧ (["a"] : List String).Nodup ∧
        ∀ p ∈ (["a"] : List String), p ∉ (["a"] : List String)) :=
  claim1_partition env0 ⟨[("a", Entry.file "x")]⟩ ["a", "a"] (some "linux")
    (some "h") none
    ⟨[("h/.local/share/Trash/info/a.trashinfo",
        Entry.file "[Trash Info]\nPath=a\nDeletionDate=2024-03-04T05:06:07\n"),
      ("h/.local/share/Trash/files/a", Entry.file "x"),
      ("h/.local/share/Trash/info", Entry.dir),
      ("h/.local/share/Trash/files", Entry.dir)]⟩
    ["a"] ["a"]
    [Eff.move "a" "h/.local/share/Trash/files/a",
     Eff.write "h/.local/share/Trash/info/a.trashinfo"
       "[Trash Info]\nPath=a\nDeletionDate=2024-03-04T05:06:07\n"]
    rfl

/-- Claim C5: every path the Freedesktop mover reports succeeded was moved
to `files/<name>` and had `info/<name>.trashinfo` written with exactly the
record `infoContent` (header line, `Path=` percent-encoding of the
absolute original path — which decodes back to it exactly — and
`DeletionDate=` the injected clock formatted as local time truncated to
seconds), and every record written in the call carries the single batch
stamp. -/
theorem claim5_fd_record (env : Env) (fs : FS) (paths : List String)
    (home_dir : Option String) (now : Option Nat) (fs' : FS)
    (ok failed : List String) (tr : List Eff)
    (hret : trash_freedesktop env fs paths home_dir now =
      .ok (fs', ok, failed, tr)) :
    (∀ p ∈ ok, ∃ nm,
      Eff.move p (pathJoin (filesDirOf (resolveHome env home_dir)) nm) ∈ tr ∧
      Eff.write (pathJoin (infoDirOf (resolveHome env home_dir))
          (nm ++ ".trashinfo")) (infoContent env p (batchStamp env now)) ∈ tr ∧
      unquoteStr (quoteStr (env.abspath p)) = some (env.abspath p)) ∧
    (∀ pa c, Eff.write pa c ∈ tr →
      ∃ q, c = infoContent env q (batchStamp env now)) := by
  rw [trash_freedesktop] at hret
  cases hmk1 : makedirs env fs (filesDirOf (resolveHome env home_dir)) with
  | error e =>
      rw [hmk1] at hret
      exact Except.noConfusion hret
  | ok fs1 =>
      rw [hmk1] at hret
      dsimp only at hret
      cases hmk2 : makedirs env fs1 (infoDirOf (resolveHome env home_dir)) with
      | error e =>
          rw [hmk2] at hret
          exact Except.noConfusion hret
      | ok fs2 =>
          rw [hmk2] at hret
          injection hret with h'
          obtain ⟨hfd1, hfd2⟩ := filesDirOf_end (resolveHome env home_dir)
          constructor
          · intro p hp
            have hp' : p ∈ (runLoop (fdStep env
                (filesDirOf (resolveHome env home_dir))
                (infoDirOf (resolveHome env home_dir)) (batchStamp env now)) fs2
                paths).2.1 := by
              rw [h']
              exact hp
            obtain ⟨nm, hnm, hmv, hwr⟩ := fdLoop_ok_writes env _ _ _ hfd1 hfd2
              paths fs2 p hp'
            refine ⟨nm, ?_, ?_, unquote_quote_roundtrip (env.abspath p)⟩
            · rw [← show (runLoop (fdStep env
                  (filesDirOf (resolveHome env home_dir))
                  (infoDirOf (resolveHome env home_dir)) (batchStamp env now)) fs2
                  paths).2.2.2 = tr by rw [h']]
              exact hmv
            · rw [← show (runLoop (fdStep env
                  (filesDirOf (resolveHome env home_dir))
                  (infoDirOf (resolveHome env home_dir)) (batchStamp env now)) fs2
                  paths).2.2.2 = tr by rw [h']]
              exact hwr
          · intro pa c hwc
            have hwc' : Eff.write pa c ∈ (runLoop (fdStep env
                (filesDirOf (resolveHome env home_dir))
                (infoDirOf (resolveHome env home_dir)) (batchStamp env now)) fs2
                paths).2.2.2 := by
              rw [h']
              exact hwc
            exact fdLoop_write_shape env _ _ _ hfd1 hfd2 paths fs2 pa c hwc'

/-- Witness for C5: a concrete Freedesktop call writing one record. -/
theorem claim5_fd_record_witness :
    (∀ p ∈ (["/home/u/song.mp3"] : List String), ∃ nm,
      Eff.move p (pathJoin (filesDirOf (resolveHome env0 (some "h"))) nm) ∈
        [Eff.move "/home/u/song.mp3" "h/.local/share/Trash/files/song.mp3",
         Eff.write "h/.local/share/Trash/info/song.mp3.trashinfo"
           "[Trash Info]\nPath=/home/u/song.mp3\nDeletionDate=2024-03-04T05:06:07\n"] ∧
      Eff.write (pathJoin (infoDirOf (resolveHome env0 (some "h")))
          (nm ++ ".trashinfo")) (infoContent env0 p (batchStamp env0 (some 5))) ∈
        [Eff.move "/home/u/song.mp3" "h/.local/share/Trash/files/song.mp3",
         Eff.write "h/.local/share/Trash/info/song.mp3.trashinfo"
           "[Trash Info]\nPath=/home/u/song.mp3\nDeletionDate=2024-03-04T05:06:07\n"] ∧
      unquoteStr (quoteStr (env0.abspath p)) = some (env0.abspath p)) ∧
    (∀ pa c, Eff.write pa c ∈
        [Eff.move "/home/u/song.mp3" "h/.local/share/Trash/files/song.mp3",
         Eff.write "h/.local/share/Trash/info/song.mp3.trashinfo"
           "[Trash Info]\nPath=/home/u/song.mp3\nDeletionDate=2024-03-04T05:06:07\n"] →
      ∃ q, c = infoContent env0 q (batchStamp env0 (some 5))) :=
  claim5_fd_record env0
    ⟨[("/home/u/song.mp3", Entry.file "data"),
      ("h/.local/share/Trash/files", Entry.dir),
      ("h/.local/share/Trash/info", Entry.dir)]⟩
    ["/home/u/song.mp3"] (some "h") (some 5)
    ⟨[("h/.local/share/Trash/info/song.mp3.trashinfo",
        Entry.file "[Trash Info]\nPath=/home/u/song.mp3\nDeletionDate=2024-03-04T05:06:07\n"),
      ("h/.local/share/Trash/files/song.mp3", Entry.file "data"),
      ("h/.local/share/Trash/files", Entry.dir),
      ("h/.local/share/Trash/info", Entry.dir)]⟩
    ["/home/u/song.mp3"] [] 
    [Eff.move "/home/u/song.mp3" "h/.local/share/Trash/files/song.mp3",
     Eff.write "h/.local/share/Trash/info/song.mp3.trashinfo"
       "[Trash Info]\nPath=/home/u/song.mp3\nDeletionDate=2024-03-04T05:06:07\n"]
    rfl

/-- Claim C6: when the metadata write raises after a successful move, the
Freedesktop mover reports the path failed (never succeeded) while the file
stays physically relocated — the destination exists in the final
filesystem, the source is gone, and no move out of the destination (no
rollback) ever appears in the trace — and the batch still attributes every
remaining path.  Stated for an environment in which every metadata write
raises and inputs that do not reach into the `files/` area. -/
theorem claim6_fd_write_failure (env : Env) (fs : FS) (paths : List String)
    (home_dir : Option String) (now : Option Nat) (fs' : FS)
    (ok failed : List String) (tr : List Eff)
    (hw : ∀ x, env.writeFail x = true)
    (hpre : ∀ q ∈ paths,
      strStartsWith q (filesDirOf (resolveHome env home_dir) ++ "/") = false)
    (hret : trash_freedesktop env fs paths home_dir now =
      .ok (fs', ok, failed, tr)) :
    ok = [] ∧ failed = paths ∧ ok.length + failed.length = paths.length ∧
    ∀ p d, Eff.move p d ∈ tr →
      p ∈ failed ∧ fs'.contains d = true ∧ fs'.contains p = false ∧
      (∀ x, Eff.move d x ∉ tr) := by
  rw [trash_freedesktop] at hret
  cases hmk1 : makedirs env fs (filesDirOf (resolveHome env home_dir)) with
  | error e =>
      rw [hmk1] at hret
      exact Except.noConfusion hret
  | ok fs1 =>
      rw [hmk1] at hret
      dsimp only at hret
      cases hmk2 : makedirs env fs1 (infoDirOf (resolveHome env home_dir)) with
      | error e =>
          rw [hmk2] at hret
          exact Except.noConfusion hret
      | ok fs2 =>
          rw [hmk2] at hret
          injection hret with h'
          obtain ⟨hfd1, hfd2⟩ := filesDirOf_end (resolveHome env home_dir)
          obtain ⟨hok, hfail, hmoves⟩ := fdLoop_writefail env
            (filesDirOf (resolveHome env home_dir))
            (infoDirOf (resolveHome env home_dir)) (batchStamp env now)
            hfd1 hfd2 hw paths fs2 hpre
          rw [h'] at hok hfail hmoves
          dsimp only at hok hfail hmoves
          refine ⟨hok, hfail, by rw [hok, hfail]; simp, ?_⟩
          intro p d hm
          have hm' : Eff.move p d ∈ (runLoop (fdStep env
              (filesDirOf (resolveHome env home_dir))
              (infoDirOf (resolveHome env home_dir)) (batchStamp env now)) fs2
              paths).2.2.2 := by
            rw [h']
            exact hm
          have hshape := fdLoop_move_shape env _ _ _ hfd1 hfd2 paths fs2 p d hm'
          obtain ⟨hcd, hcp⟩ := hmoves p d hm
          refine ⟨by rw [hfail]; exact hshape.1, hcd, hcp, ?_⟩
          intro x hx
          have hx' : Eff.move d x ∈ (runLoop (fdStep env
              (filesDirOf (resolveHome env home_dir))
              (infoDirOf (resolveHome env home_dir)) (batchStamp env now)) fs2
              paths).2.2.2 := by
            rw [h']
            exact hx
          have hshape2 := fdLoop_move_shape env _ _ _ hfd1 hfd2 paths fs2 d x hx'
          have hdpre := hpre d hshape2.1
          rw [hshape.2] at hdpre
          cases hdpre

/-- Witness for C6: a concrete call in which every metadata write fails;
the moved file stays at its destination, its source is gone, and both
paths are reported failed. -/
theorem claim6_fd_write_failure_witness :
    ([] : List String) = [] ∧
    (["/home/u/song.mp3", "nope"] : List String) = ["/home/u/song.mp3", "nope"] ∧
    List.length ([] : List String) +
      List.length (["/home/u/song.mp3", "nope"] : List String) =
      List.length (["/home/u/song.mp3", "nope"] : List String) ∧
    ∀ p d, Eff.move p d ∈
        [Eff.move "/home/u/song.mp3" "h/.local/share/Trash/files/song.mp3"] →
      p ∈ (["/home/u/song.mp3", "nope"] : List String) ∧
      FS.contains ⟨[("h/.local/share/Trash/files/song.mp3", Entry.file "data"),
        ("h/.local/share/Trash/files", Entry.dir),
        ("h/.local/share/Trash/info", Entry.dir)]⟩ d = true ∧
      FS.contains ⟨[("h/.local/share/Trash/files/song.mp3", Entry.file "data"),
        ("h/.local/share/Trash/files", Entry.dir),
        ("h/.local/share/Trash/info", Entry.dir)]⟩ p = false ∧
      (∀ x, Eff.move d x ∉
        [Eff.move "/home/u/song.mp3" "h/.local/share/Trash/files/song.mp3"]) :=
  claim6_fd_write_failure { env0 with writeFail := fun _ => true }
    ⟨[("/home/u/song.mp3", Entry.file "data"),
      ("h/.local/share/Trash/files", Entry.dir),
      ("h/.local/share/Trash/info", Entry.dir)]⟩
    ["/home/u/song.mp3", "nope"] (some "h") (some 5)
    ⟨[("h/.local/share/Trash/files/song.mp3", Entry.file "data"),
      ("h/.local/share/Trash/files", Entry.dir),
      ("h/.local/share/Trash/info", Entry.dir)]⟩
    [] ["/home/u/song.mp3", "nope"]
    [Eff.move "/home/u/song.mp3" "h/.local/share/Trash/files/song.mp3"]
    (fun _ => rfl) (by decide) rfl
